import Mathlib

/-!
Verification of the reactive core and virtual-DOM patch algorithm of a
Vue-2-style UI runtime (a shallow embedding of the JavaScript source).

The development is organised as follows:
* a model of JavaScript values with strict (`===`) equality, including `NaN`;
* `src/core/observer/dep.js` / `observer/index.js`: `defineReactive`
  getter/setter closures, `set`, and the wrapped array mutation methods;
* `src/core/observer/watcher.js`: the `Watcher` dependency bookkeeping
  (`addDep`, `cleanupDeps`, `get`, `teardown`) against a store of `Dep`s;
* `src/core/instance/state.js`: the computed-property getter and lazy watcher;
* `src/core/vdom/patch.js`: `sameVnode`, `patchVnode`, `updateChildren`,
  `addVnodes`, `removeVnodes`, and the top-level `patch` dispatcher, with the
  host-DOM facade and module hooks modelled as an event log.
-/

namespace VueCore

/-! ### JavaScript values

A value model sufficient for the reactivity layer: numbers (with `NaN` kept
separate so that strict equality can treat it as unequal to itself), strings,
booleans, `undefined`, `null`, and object references identified by an
allocation number (JS `===` on objects is reference equality).
-/

inductive JSVal : Type where
  | num (n : Int)
  | nan
  | str (s : String)
  | bool (b : Bool)
  | undef
  | nullv
  | ref (r : Nat)
deriving DecidableEq, Repr

/-- JavaScript strict equality `===`: structural on primitives and reference
numbers, except that `NaN === NaN` is `false`. -/
def strictEq (a b : JSVal) : Bool :=
  decide (a = b ∧ a ≠ JSVal.nan)

theorem strictEq_iff (a b : JSVal) :
    strictEq a b = true ↔ (a = b ∧ a ≠ JSVal.nan) := by
  simp [strictEq]

/-- `x !== x` holds exactly for `NaN`. -/
theorem strictEq_self_ne_iff (a : JSVal) :
    strictEq a a = false ↔ a = JSVal.nan := by
  cases a <;> simp [strictEq]

/-! ### `defineReactive` (src/core/observer: `defineReactive`, lines 261-345)

`defineReactive(obj, key)` creates a closure over `val` (the current value)
and a key-scoped `Dep`.  We model the common data path, in which the
property has no pre-existing user getter/setter (`walk` calls
`defineReactive(obj, keys[i])` with two arguments, so `getter`/`setter` are
absent and the closure variable `val` holds the value).

* `reactiveGetter` returns `val` (the `dep.depend()` dependency-collection
  side effect is modelled separately in the Watcher section).
* `reactiveSetter` implements
  `if (newVal === value || (newVal !== newVal && value !== value)) return;`
  and otherwise stores the value and calls `dep.notify()` once; we count the
  `notify` calls.
-/

structure ReactiveKey : Type where
  /-- the closure variable `val` -/
  val : JSVal
  /-- cumulative number of `dep.notify()` calls issued by the setter -/
  notifyCount : Nat
deriving DecidableEq, Repr

def reactiveGetter (st : ReactiveKey) : JSVal :=
  st.val

def reactiveSetter (st : ReactiveKey) (newVal : JSVal) : ReactiveKey :=
  -- `const value = val` (no user getter)
  let value := st.val
  if strictEq newVal value || (!strictEq newVal newVal && !strictEq value value) then
    st
  else
    -- `val = newVal; childOb = observe(newVal); dep.notify()`
    { val := newVal, notifyCount := st.notifyCount + 1 }

/-- The setter's skip guard fires exactly when the written value coincides
with the stored one (in the model, `NaN` is a single value, so the guard's
two disjuncts collapse to plain equality). -/
theorem reactiveSetter_skip_iff (st : ReactiveKey) (v : JSVal) :
    (strictEq v st.val || (!strictEq v v && !strictEq st.val st.val)) = true ↔
      v = st.val := by
  constructor
  · intro h
    rcases Bool.or_eq_true_iff.mp h with h1 | h1
    · exact ((strictEq_iff v st.val).mp h1).1
    · have hv : v = JSVal.nan := by
        have h2 := (Bool.and_eq_true_iff.mp h1).1
        apply (strictEq_self_ne_iff v).mp
        cases hEq : strictEq v v
        · rfl
        · rw [hEq] at h2; simp at h2
      have hw : st.val = JSVal.nan := by
        have h2 := (Bool.and_eq_true_iff.mp h1).2
        apply (strictEq_self_ne_iff st.val).mp
        cases hEq : strictEq st.val st.val
        · rfl
        · rw [hEq] at h2; simp at h2
      rw [hv, hw]
  · intro h
    rw [h]
    by_cases hn : st.val = JSVal.nan
    · rw [hn]
      simp [strictEq]
    · have hs : strictEq st.val st.val = true :=
        (strictEq_iff st.val st.val).mpr ⟨rfl, hn⟩
      simp [hs]

theorem reactiveSetter_val (st : ReactiveKey) (v : JSVal) :
    (reactiveSetter st v).val = v := by
  unfold reactiveSetter
  by_cases h : v = st.val
  · rw [if_pos ((reactiveSetter_skip_iff st v).mpr h)]
    exact h.symm
  · rw [if_neg (by
      intro hc
      exact h ((reactiveSetter_skip_iff st v).mp hc))]

/-- Writing the value already stored (including `NaN` over `NaN`) leaves the
closure state untouched: in particular `dep.notify()` is not called. -/
theorem reactiveSetter_same (st : ReactiveKey) :
    reactiveSetter st st.val = st := by
  unfold reactiveSetter
  rw [if_pos ((reactiveSetter_skip_iff st st.val).mpr rfl)]

/-- A second write of the same value is skipped entirely. -/
theorem reactiveSetter_twice (st : ReactiveKey) (v : JSVal) :
    reactiveSetter (reactiveSetter st v) v = reactiveSetter st v := by
  have hv : (reactiveSetter st v).val = v := reactiveSetter_val st v
  calc reactiveSetter (reactiveSetter st v) v
      = reactiveSetter (reactiveSetter st v) (reactiveSetter st v).val := by rw [hv]
    _ = reactiveSetter st v := reactiveSetter_same _

theorem reactiveSetter_notify_le (st : ReactiveKey) (v : JSVal) :
    (reactiveSetter st v).notifyCount ≤ st.notifyCount + 1 := by
  unfold reactiveSetter
  by_cases h : (strictEq v st.val || (!strictEq v v && !strictEq st.val st.val)) = true
  · simp [h]
  · simp [h]

/-! ### `Dep` and `Watcher` (src/core/observer: `Dep`, `Watcher`)

`Dep`s carry a globally unique numeric `id` (`uid++` in the constructor), so
the model identifies a dep by that id; a store (`DepStore`) holds the dep
objects and is updated pointwise at the dep with the given id.  A `Dep`'s
`subs` is a plain array of subscribers (`addSub` pushes, `removeSub` removes
the first occurrence via the `remove` util); watchers are likewise globally
numbered, so `subs` is modelled as the list of subscriber watcher ids.

A `Watcher` keeps the two dep generations as the source does: `deps`/`newDeps`
(arrays of dep objects, modelled by their ids in push order) and
`depIds`/`newDepIds` (sets of ids; a JS `Set` preserves insertion order, so it
is modelled as a duplicate-free list with `add` appending).

`Watcher.get` brackets an evaluation of the getter: the getter's reads
trigger `dep.depend()`, i.e. `Dep.target.addDep(dep)`, once per read, in
order; the model takes that sequence of dep ids as the `reads` argument, and
finishes with `cleanupDeps` exactly as the `finally` block does
(`pushTarget`/`popTarget` and deep traversal only determine which ids appear
in `reads`).
-/

structure Dep : Type where
  id : Nat
  subs : List Nat
deriving DecidableEq, Repr

/-- `remove(arr, item)`: splice out the first occurrence. `List.erase` has
exactly this behaviour. -/
def Dep.removeSub (d : Dep) (w : Nat) : Dep :=
  { d with subs := d.subs.erase w }

def Dep.addSub (d : Dep) (w : Nat) : Dep :=
  { d with subs := d.subs ++ [w] }

structure Watcher : Type where
  id : Nat
  active : Bool
  deps : List Nat
  newDeps : List Nat
  depIds : List Nat
  newDepIds : List Nat
deriving DecidableEq, Repr

abbrev DepStore := List Dep

/-- `Watcher.addDep(dep)` (part_001 lines 200-214): dedupe on `newDepIds`,
push onto the new generation, and subscribe (`dep.addSub(this)`) unless the
previous generation already subscribed. -/
def Watcher.addDep (w : Watcher) (store : DepStore) (i : Nat) : Watcher × DepStore :=
  if i ∈ w.newDepIds then (w, store)
  else
    let w2 := { w with newDepIds := w.newDepIds ++ [i], newDeps := w.newDeps ++ [i] }
    if i ∈ w.depIds then (w2, store)
    else (w2, store.map (fun d => if d.id = i then d.addSub w.id else d))

/-- `Watcher.cleanupDeps` (part_001 lines 222-242): remove self from the subs
of every old-generation dep that is not in `newDepIds` (the source iterates
over `this.deps`, whose ids are duplicate-free under well-formedness, so the
pointwise store update below performs the same `removeSub` calls), then swap
the generations and clear the scratch set. -/
def Watcher.cleanupDeps (w : Watcher) (store : DepStore) : Watcher × DepStore :=
  let store2 := store.map fun d =>
    if d.id ∈ w.deps ∧ d.id ∉ w.newDepIds then d.removeSub w.id else d
  ({ w with deps := w.newDeps, depIds := w.newDepIds,
            newDeps := [], newDepIds := [] }, store2)

/-- `Watcher.get` (part_001 lines 149-184): evaluate the getter with self as
the target (each reactive read calls `dep.depend()`, hence `addDep`), then
`cleanupDeps` in the `finally` block. -/
def Watcher.get (w : Watcher) (store : DepStore) (reads : List Nat) :
    Watcher × DepStore :=
  let p := reads.foldl (fun p i => Watcher.addDep p.1 p.2 i) (w, store)
  Watcher.cleanupDeps p.1 p.2

/-- `Watcher.teardown` (part_001 lines 380-394): if active, remove self from
every subscribed dep's subs (`this.deps` is iterated; pointwise update as in
`cleanupDeps`) and clear the active flag.  Note: `this.deps` itself is NOT
cleared.  (Removal from `vm._watchers` is outside the modelled state.) -/
def Watcher.teardown (w : Watcher) (store : DepStore) : Watcher × DepStore :=
  if w.active then
    ({ w with active := false },
     store.map fun d => if d.id ∈ w.deps then d.removeSub w.id else d)
  else (w, store)

/-! Well-formedness and the subscription-graph invariants. -/

/-- The id sets mirror the dep arrays and neither generation repeats a dep.
(`depIds`/`deps` and `newDepIds`/`newDeps` are filled and swapped in
lockstep by `addDep`/`cleanupDeps`.) -/
def WatcherWF (w : Watcher) : Prop :=
  w.depIds = w.deps ∧ w.newDepIds = w.newDeps ∧ w.deps.Nodup ∧ w.newDeps.Nodup

/-- No dep's subs list mentions this watcher twice (the `(Dep, Watcher)`
pairs are unique). -/
def SubsOnce (w : Watcher) (store : DepStore) : Prop :=
  ∀ d ∈ store, d.subs.count w.id ≤ 1

/-- The in-get generalisation of the subscription invariant: during an
evaluation, a dep's subs mention the watcher iff the dep is in either
generation. -/
def GenInv (w : Watcher) (store : DepStore) : Prop :=
  ∀ d ∈ store, (w.id ∈ d.subs ↔ (d.id ∈ w.deps ∨ d.id ∈ w.newDeps))

/-- The quiescent subscription invariant (spec section 8): `w ∈ d.subs ⇔
d ∈ w.deps`. -/
def QuiescentInv (w : Watcher) (store : DepStore) : Prop :=
  ∀ d ∈ store, (w.id ∈ d.subs ↔ d.id ∈ w.deps)

/-- Frame relation for store updates made on behalf of watcher `wid`: dep
identities are untouched and the subs membership of every other watcher id
is untouched. -/
def OthersEq (wid : Nat) : DepStore → DepStore → Prop
  | [], [] => True
  | d :: s, d2 :: s2 =>
      d2.id = d.id ∧ (∀ j, j ≠ wid → d2.subs.count j = d.subs.count j) ∧ OthersEq wid s s2
  | _, _ => False

theorem OthersEq.rfl (wid : Nat) : ∀ s : DepStore, OthersEq wid s s
  | [] => trivial
  | _ :: s => ⟨Eq.refl _, fun _ _ => Eq.refl _, OthersEq.rfl wid s⟩

theorem OthersEq.compose (wid : Nat) :
    ∀ {s1 s2 s3 : DepStore}, OthersEq wid s1 s2 → OthersEq wid s2 s3 →
      OthersEq wid s1 s3
  | [], [], [], _, _ => trivial
  | _ :: _, _ :: _, _ :: _, ⟨h1, h2, h3⟩, ⟨g1, g2, g3⟩ =>
      ⟨g1.trans h1, fun j hj => (g2 j hj).trans (h2 j hj),
       OthersEq.compose wid h3 g3⟩

theorem OthersEq.ofMap (wid : Nat) (f : Dep → Dep)
    (hid : ∀ d, (f d).id = d.id)
    (hcnt : ∀ d j, j ≠ wid → (f d).subs.count j = d.subs.count j) :
    ∀ s : DepStore, OthersEq wid s (s.map f)
  | [] => trivial
  | d :: s => ⟨hid d, hcnt d, OthersEq.ofMap wid f hid hcnt s⟩

theorem mem_of_count_eq {a : Nat} {l l2 : List Nat}
    (h : l2.count a = l.count a) : a ∈ l2 ↔ a ∈ l := by
  constructor
  · intro hm
    by_contra hm2
    have h0 : l.count a = 0 := List.count_eq_zero.mpr hm2
    have : l2.count a = 0 := by omega
    exact (List.count_eq_zero.mp this) hm
  · intro hm
    by_contra hm2
    have h0 : l2.count a = 0 := List.count_eq_zero.mpr hm2
    have : l.count a = 0 := by omega
    exact (List.count_eq_zero.mp this) hm

/-- Updates made on behalf of one watcher do not disturb the quiescent
invariant of any other watcher. -/
theorem QuiescentInv.ofOthersEq {wid : Nat} (u : Watcher) (hu : u.id ≠ wid) :
    ∀ {s s2 : DepStore}, OthersEq wid s s2 → QuiescentInv u s →
      QuiescentInv u s2
  | [], [], _, _ => by intro d hd; cases hd
  | d :: s, d2 :: s2, ⟨h1, h2, h3⟩, hq => by
      intro e he
      rcases List.mem_cons.mp he with rfl | he2
      · rw [h1, mem_of_count_eq (h2 u.id hu)]
        exact hq d (List.mem_cons_self d s)
      · exact QuiescentInv.ofOthersEq u hu h3
          (fun e2 he3 => hq e2 (List.mem_cons_of_mem d he3)) e he2

theorem not_mem_erase_self_of_count_le_one {a : Nat} {l : List Nat}
    (h : l.count a ≤ 1) : a ∉ l.erase a := by
  intro hm
  have h1 : (l.erase a).count a = l.count a - 1 := List.count_erase_self a l
  have h2 : (l.erase a).count a = 0 := by omega
  exact (List.count_eq_zero.mp h2) hm

/-- `addDep` preserves well-formedness, the at-most-once subscription
property, and the generalised (two-generation) subscription biconditional;
it leaves the old generation, the id, and the active flag alone, extends the
new generation by exactly the added id, and touches no other watcher's
subscriptions. -/
theorem addDep_step (w : Watcher) (store : DepStore) (i : Nat)
    (hwf : WatcherWF w) (hso : SubsOnce w store) (hgi : GenInv w store) :
    WatcherWF (w.addDep store i).1 ∧
    SubsOnce (w.addDep store i).1 (w.addDep store i).2 ∧
    GenInv (w.addDep store i).1 (w.addDep store i).2 ∧
    (w.addDep store i).1.id = w.id ∧
    (w.addDep store i).1.active = w.active ∧
    (w.addDep store i).1.deps = w.deps ∧
    (w.addDep store i).1.depIds = w.depIds ∧
    (∀ x, x ∈ (w.addDep store i).1.newDeps ↔ (x ∈ w.newDeps ∨ x = i)) ∧
    OthersEq w.id store (w.addDep store i).2 := by
  obtain ⟨hids, hnids, hnd, hnnd⟩ := hwf
  by_cases h1 : i ∈ w.newDepIds
  · -- already collected in this generation: complete no-op
    simp only [Watcher.addDep, if_pos h1]
    refine ⟨⟨hids, hnids, hnd, hnnd⟩, hso, hgi, (by trivial), (by trivial), (by trivial),
      (by trivial), ?_, OthersEq.rfl w.id store⟩
    intro x
    constructor
    · exact fun hx => Or.inl hx
    · rintro (hx | rfl)
      · exact hx
      · rw [← hnids]; exact h1
  · by_cases h2 : i ∈ w.depIds
    · -- known from the previous generation: record in newDeps, no addSub
      simp only [Watcher.addDep, if_pos h2, if_neg h1]
      have hnewNd : (w.newDeps ++ [i]).Nodup := by
        rw [List.nodup_append]
        refine ⟨hnnd, List.nodup_singleton i, ?_⟩
        intro x hx hx2
        rw [List.mem_singleton] at hx2
        subst hx2
        exact h1 (by rw [hnids]; exact hx)
      refine ⟨⟨hids, by rw [hnids], hnd, hnewNd⟩, hso, ?_, (by trivial), (by trivial),
        (by trivial), (by trivial), ?_, OthersEq.rfl w.id store⟩
      · intro d hd
        rw [hgi d hd]
        constructor
        · rintro (hx | hx)
          · exact Or.inl hx
          · exact Or.inr (List.mem_append_left _ hx)
        · rintro (hx | hx)
          · exact Or.inl hx
          · rcases List.mem_append.mp hx with hy | hy
            · exact Or.inr hy
            · rw [List.mem_singleton] at hy
              subst hy
              exact Or.inl (by rw [← hids]; exact h2)
      · intro x
        rw [List.mem_append, List.mem_singleton]
    · -- a brand new dep: record it and subscribe (`dep.addSub(this)`)
      simp only [Watcher.addDep, if_neg h1, if_neg h2]
      have hnewNd : (w.newDeps ++ [i]).Nodup := by
        rw [List.nodup_append]
        refine ⟨hnnd, List.nodup_singleton i, ?_⟩
        intro x hx hx2
        rw [List.mem_singleton] at hx2
        subst hx2
        exact h1 (by rw [hnids]; exact hx)
      refine ⟨⟨hids, by rw [hnids], hnd, hnewNd⟩, ?_, ?_, (by trivial), (by trivial),
        (by trivial), (by trivial), ?_, ?_⟩
      · -- SubsOnce: the only touched dep had no copy of w.id in its subs
        intro d2 hd2
        rcases List.mem_map.mp hd2 with ⟨d, hd, rfl⟩
        by_cases hdi : d.id = i
        · have hnot : w.id ∉ d.subs := by
            rw [hgi d hd]
            rintro (hx | hx)
            · exact h2 (by rw [hids]; rw [← hdi]; exact hx)
            · exact h1 (by rw [hnids]; rw [← hdi]; exact hx)
          have hz : d.subs.count w.id = 0 := List.count_eq_zero.mpr hnot
          simp only [if_pos hdi, Dep.addSub, List.count_append, hz]
          simp
        · simp only [if_neg hdi]
          exact hso d hd
      · -- GenInv after pointwise addSub at the new dep
        intro d2 hd2
        rcases List.mem_map.mp hd2 with ⟨d, hd, rfl⟩
        by_cases hdi : d.id = i
        · simp only [if_pos hdi, Dep.addSub]
          constructor
          · intro _
            exact Or.inr (List.mem_append_right _ (by rw [hdi]; exact List.mem_singleton.mpr rfl))
          · intro _
            exact List.mem_append_right _ (List.mem_singleton.mpr rfl)
        · simp only [if_neg hdi]
          rw [hgi d hd]
          constructor
          · rintro (hx | hx)
            · exact Or.inl hx
            · exact Or.inr (List.mem_append_left _ hx)
          · rintro (hx | hx)
            · exact Or.inl hx
            · rcases List.mem_append.mp hx with hy | hy
              · exact Or.inr hy
              · rw [List.mem_singleton] at hy
                exact absurd hy hdi
      · intro x
        rw [List.mem_append, List.mem_singleton]
      · refine OthersEq.ofMap w.id _ ?_ ?_ store
        · intro d
          by_cases hdi : d.id = i
          · simp [if_pos hdi, Dep.addSub]
          · simp [if_neg hdi]
        · intro d j hj
          by_cases hdi : d.id = i
          · simp only [if_pos hdi, Dep.addSub, List.count_append]
            have : List.count j [w.id] = 0 := by
              rw [List.count_eq_zero]
              intro hm
              exact hj (List.mem_singleton.mp hm)
            omega
          · simp [if_neg hdi]

/-- The dependency-collection phase of `get` (the getter evaluation folding
`addDep` over the sequence of reads) keeps all invariants and collects
exactly the read ids into the new generation. -/
theorem addDep_fold (reads : List Nat) :
    ∀ (w : Watcher) (store : DepStore),
      WatcherWF w → SubsOnce w store → GenInv w store →
      (let p := reads.foldl (fun p i => Watcher.addDep p.1 p.2 i) (w, store)
      WatcherWF p.1 ∧ SubsOnce p.1 p.2 ∧ GenInv p.1 p.2 ∧
      p.1.id = w.id ∧ p.1.active = w.active ∧
      p.1.deps = w.deps ∧ p.1.depIds = w.depIds ∧
      (∀ x, x ∈ p.1.newDeps ↔ (x ∈ w.newDeps ∨ x ∈ reads)) ∧
      OthersEq w.id store p.2) := by
  induction reads with
  | nil =>
      intro w store hwf hso hgi
      exact ⟨hwf, hso, hgi, rfl, rfl, rfl, rfl,
        fun x => by simp, OthersEq.rfl w.id store⟩
  | cons i rest ih =>
      intro w store hwf hso hgi
      obtain ⟨swf, sso, sgi, sid, sact, sdeps, sdepIds, smem, soth⟩ :=
        addDep_step w store i hwf hso hgi
      obtain ⟨twf, tso, tgi, tid, tact, tdeps, tdepIds, tmem, toth⟩ :=
        ih (w.addDep store i).1 (w.addDep store i).2 swf sso sgi
      have hfold :
          (i :: rest).foldl (fun p i => Watcher.addDep p.1 p.2 i) (w, store) =
          rest.foldl (fun p i => Watcher.addDep p.1 p.2 i)
            ((w.addDep store i).1, (w.addDep store i).2) := by
        simp [List.foldl_cons]
      simp only [hfold]
      refine ⟨twf, tso, tgi, tid.trans sid, tact.trans sact,
        tdeps.trans sdeps, tdepIds.trans sdepIds, ?_, ?_⟩
      · intro x
        rw [tmem x, smem x, List.mem_cons]
        tauto
      · exact OthersEq.compose _ soth (by rw [← sid]; exact toth)

/-- `cleanupDeps` unsubscribes from every old-generation dep that the new
generation did not touch, swaps the generations, clears the scratch sets,
and restores the quiescent biconditional for the acting watcher. -/
theorem cleanupDeps_spec (w : Watcher) (store : DepStore)
    (hwf : WatcherWF w) (hso : SubsOnce w store) (hgi : GenInv w store) :
    (w.cleanupDeps store).1 =
      { w with deps := w.newDeps, depIds := w.newDepIds,
               newDeps := [], newDepIds := [] } ∧
    WatcherWF (w.cleanupDeps store).1 ∧
    SubsOnce (w.cleanupDeps store).1 (w.cleanupDeps store).2 ∧
    QuiescentInv (w.cleanupDeps store).1 (w.cleanupDeps store).2 ∧
    (∀ d ∈ (w.cleanupDeps store).2,
      d.id ∈ w.deps → d.id ∉ w.newDeps → w.id ∉ d.subs) ∧
    OthersEq w.id store (w.cleanupDeps store).2 := by
  obtain ⟨hids, hnids, hnd, hnnd⟩ := hwf
  have hc2 : (w.cleanupDeps store).2 = store.map (fun d =>
      if d.id ∈ w.deps ∧ d.id ∉ w.newDepIds then d.removeSub w.id else d) := rfl
  refine ⟨rfl, ⟨by show w.newDepIds = w.newDeps; exact hnids,
      rfl, by show w.newDeps.Nodup; exact hnnd,
      List.nodup_nil⟩,
    ?_, ?_, ?_, ?_⟩
  · -- SubsOnce: erasing can only lower a count
    intro d2 hd2
    rw [hc2] at hd2
    rcases List.mem_map.mp hd2 with ⟨d, hd, rfl⟩
    show (if d.id ∈ w.deps ∧ d.id ∉ w.newDepIds then
        d.removeSub w.id else d).subs.count w.id ≤ 1
    by_cases hc : d.id ∈ w.deps ∧ d.id ∉ w.newDepIds
    · simp only [if_pos hc, Dep.removeSub]
      have h1 : (d.subs.erase w.id).count w.id = d.subs.count w.id - 1 :=
        List.count_erase_self w.id d.subs
      have h2 := hso d hd
      omega
    · simp only [if_neg hc]
      exact hso d hd
  · -- quiescent invariant against the swapped generation
    intro d2 hd2
    rw [hc2] at hd2
    rcases List.mem_map.mp hd2 with ⟨d, hd, rfl⟩
    show w.id ∈ (if d.id ∈ w.deps ∧ d.id ∉ w.newDepIds then
        d.removeSub w.id else d).subs ↔
      (if d.id ∈ w.deps ∧ d.id ∉ w.newDepIds then
        d.removeSub w.id else d).id ∈ w.newDeps
    by_cases hc : d.id ∈ w.deps ∧ d.id ∉ w.newDepIds
    · simp only [if_pos hc, Dep.removeSub]
      constructor
      · intro hm
        exact absurd hm (not_mem_erase_self_of_count_le_one (hso d hd))
      · intro hm
        exact absurd (hnids ▸ hm) hc.2
    · simp only [if_neg hc]
      rw [hgi d hd]
      push_neg at hc
      rw [hnids] at hc
      constructor
      · rintro (hx | hx)
        · exact hc hx
        · exact hx
      · intro hx
        exact Or.inr hx
  · -- removal from stale deps
    intro d2 hd2 hin hnotin
    rw [hc2] at hd2
    rcases List.mem_map.mp hd2 with ⟨d, hd, rfl⟩
    by_cases hc : d.id ∈ w.deps ∧ d.id ∉ w.newDepIds
    · simp only [if_pos hc, Dep.removeSub] at hin hnotin ⊢
      exact not_mem_erase_self_of_count_le_one (hso d hd)
    · simp only [if_neg hc] at hin hnotin ⊢
      push_neg at hc
      rw [hnids] at hc
      exact absurd (hc hin) hnotin
  · rw [hc2]
    refine OthersEq.ofMap w.id _ ?_ ?_ store
    · intro d
      by_cases hc : d.id ∈ w.deps ∧ d.id ∉ w.newDepIds
      · simp [if_pos hc, Dep.removeSub]
      · simp [if_neg hc]
    · intro d j hj
      by_cases hc : d.id ∈ w.deps ∧ d.id ∉ w.newDepIds
      · simp only [if_pos hc, Dep.removeSub]
        exact List.count_erase_of_ne hj d.subs
      · simp [if_neg hc]

/-- Full specification of `Watcher.get` from a quiescent state: the new
generation ends empty, `deps` ends as exactly the set of ids read, the
watcher is unsubscribed from every stale dep, the quiescent invariant is
restored, and no other watcher's subscriptions move. -/
theorem get_spec (w : Watcher) (store : DepStore) (reads : List Nat)
    (hwf : WatcherWF w) (hq : w.newDeps = [])
    (hso : SubsOnce w store) (hqi : QuiescentInv w store) :
    (w.get store reads).1.newDeps = [] ∧
    (w.get store reads).1.newDepIds = [] ∧
    WatcherWF (w.get store reads).1 ∧
    (w.get store reads).1.id = w.id ∧
    (w.get store reads).1.active = w.active ∧
    (∀ x, x ∈ (w.get store reads).1.deps ↔ x ∈ reads) ∧
    QuiescentInv (w.get store reads).1 (w.get store reads).2 ∧
    SubsOnce (w.get store reads).1 (w.get store reads).2 ∧
    (∀ d ∈ (w.get store reads).2, d.id ∈ w.deps → d.id ∉ reads → w.id ∉ d.subs) ∧
    OthersEq w.id store (w.get store reads).2 := by
  have hgi : GenInv w store := by
    intro d hd
    rw [hqi d hd, hq]
    simp
  obtain ⟨fwf, fso, fgi, fid, fact, fdeps, fdepIds, fmem, foth⟩ :=
    addDep_fold reads w store hwf hso hgi
  set p := reads.foldl (fun p i => Watcher.addDep p.1 p.2 i) (w, store) with hp
  obtain ⟨cstr, cwf, cso, cqi, crem, coth⟩ := cleanupDeps_spec p.1 p.2 fwf fso fgi
  have hget : w.get store reads = p.1.cleanupDeps p.2 := by
    simp [Watcher.get, hp]
  rw [hget]
  have hmemNew : ∀ x, x ∈ p.1.newDeps ↔ x ∈ reads := by
    intro x
    rw [fmem x, hq]
    simp
  refine ⟨by rw [cstr], by rw [cstr], cwf, by rw [cstr]; exact fid,
    by rw [cstr]; exact fact, ?_, cqi, cso, ?_, ?_⟩
  · intro x
    rw [cstr]
    exact hmemNew x
  · intro d hd hin hnotin
    have hres := crem d hd (by rw [fdeps]; exact hin)
      (fun hx => hnotin ((hmemNew d.id).mp hx))
    rwa [fid] at hres
  · exact OthersEq.compose _ foth (by rw [← fid]; exact coth)

/-- `teardown` of an active watcher: the watcher goes inactive, it is erased
from the subs of every dep, its `deps` array is NOT cleared, and no other
watcher's subscriptions move. -/
theorem teardown_spec (w : Watcher) (store : DepStore)
    (hact : w.active = true) (hso : SubsOnce w store)
    (hqi : QuiescentInv w store) :
    (w.teardown store).1.active = false ∧
    (w.teardown store).1.deps = w.deps ∧
    (∀ d ∈ (w.teardown store).2, w.id ∉ d.subs) ∧
    OthersEq w.id store (w.teardown store).2 := by
  simp only [Watcher.teardown, hact, if_pos]
  refine ⟨by trivial, by trivial, ?_, ?_⟩
  · intro d2 hd2
    rcases List.mem_map.mp hd2 with ⟨d, hd, rfl⟩
    by_cases hc : d.id ∈ w.deps
    · simp only [if_pos hc, Dep.removeSub]
      exact not_mem_erase_self_of_count_le_one (hso d hd)
    · simp only [if_neg hc]
      rw [hqi d hd]
      exact hc
  · refine OthersEq.ofMap w.id _ ?_ ?_ store
    · intro d
      by_cases hc : d.id ∈ w.deps
      · simp [if_pos hc, Dep.removeSub]
      · simp [if_neg hc]
    · intro d j hj
      by_cases hc : d.id ∈ w.deps
      · simp only [if_pos hc, Dep.removeSub]
        exact List.count_erase_of_ne hj d.subs
      · simp [if_neg hc]

/-! ### Claim theorems for the observer layer -/

/-- C1: for every key made reactive by `defineReactive`, writing then reading
the key returns the written value; a write of the value already stored
(reference-equal, with `NaN` treated as equal to `NaN`) leaves the state
untouched and in particular does not call the key's `dep.notify()`; hence
the second of two identical writes never notifies, so two writes of the same
value notify at most once. -/
theorem vue_C1_reactive_round_trip (st : ReactiveKey) (v : JSVal) :
    reactiveGetter (reactiveSetter st v) = v ∧
    reactiveSetter st st.val = st ∧
    reactiveSetter (reactiveSetter st v) v = reactiveSetter st v ∧
    (reactiveSetter (reactiveSetter st v) v).notifyCount ≤ st.notifyCount + 1 := by
  refine ⟨reactiveSetter_val st v, reactiveSetter_same st,
    reactiveSetter_twice st v, ?_⟩
  rw [reactiveSetter_twice st v]
  exact reactiveSetter_notify_le st v

/-- C2 counterexample: `teardown` removes the watcher from every subscribed
dep's `subs` but does NOT clear `this.deps`, so after tearing down an active
watcher the biconditional `w ∈ d.subs ⇔ d ∈ w.deps` fails (the right side
still holds, the left no longer does). -/
theorem vue_C2_counterexample :
    ¬ QuiescentInv
        (Watcher.teardown ⟨1, true, [0], [], [0], []⟩ [⟨0, [1]⟩]).1
        (Watcher.teardown ⟨1, true, [0], [], [0], []⟩ [⟨0, [1]⟩]).2 := by
  unfold QuiescentInv Watcher.teardown
  decide

/-- C2 (amended): at quiescent points the subscription graph is bidirectional
for every ACTIVE watcher: `w ∈ d.subs ⇔ d ∈ w.deps`.  `addDep` preserves the
in-evaluation generalisation of the biconditional (new-generation deps
included); a complete `get` (collection plus `cleanupDeps`) restores the
quiescent biconditional and keeps the watcher active; `teardown` removes the
watcher from the subs of every dep and deactivates it, so the invariant
restricted to active watchers is preserved (the torn-down watcher itself
keeps its stale `deps` array, which is why the unrestricted biconditional
fails); and neither operation moves any other watcher's subscriptions. -/
theorem vue_C2_subscription_invariant
    (w : Watcher) (store : DepStore) (reads : List Nat) (u : Watcher)
    (hwf : WatcherWF w) (hq : w.newDeps = [])
    (hso : SubsOnce w store) (hqi : QuiescentInv w store)
    (hact : w.active = true) (hu : u.id ≠ w.id)
    (hqu : QuiescentInv u store) :
    (∀ i, GenInv (w.addDep store i).1 (w.addDep store i).2) ∧
    QuiescentInv (w.get store reads).1 (w.get store reads).2 ∧
    (w.get store reads).1.active = true ∧
    (w.teardown store).1.active = false ∧
    (∀ d ∈ (w.teardown store).2, w.id ∉ d.subs) ∧
    QuiescentInv u (w.get store reads).2 ∧
    QuiescentInv u (w.teardown store).2 := by
  have hgi : GenInv w store := by
    intro d hd
    rw [hqi d hd, hq]
    simp
  obtain ⟨gn, gn2, gwf, gid, gact, gmem, gqi, gso, grem, goth⟩ :=
    get_spec w store reads hwf hq hso hqi
  obtain ⟨tact, tdeps, trem, toth⟩ := teardown_spec w store hact hso hqi
  refine ⟨?_, gqi, by rw [gact]; exact hact, tact, trem, ?_, ?_⟩
  · intro i
    exact (addDep_step w store i hwf hso hgi).2.2.1
  · exact QuiescentInv.ofOthersEq u hu goth hqu
  · exact QuiescentInv.ofOthersEq u hu toth hqu

theorem vue_C2_witness :
    QuiescentInv
      (Watcher.get ⟨1, true, [0], [], [0], []⟩ [⟨0, [1]⟩, ⟨2, []⟩] [2]).1
      (Watcher.get ⟨1, true, [0], [], [0], []⟩ [⟨0, [1]⟩, ⟨2, []⟩] [2]).2 ∧
    (Watcher.teardown ⟨1, true, [0], [], [0], []⟩ [⟨0, [1]⟩, ⟨2, []⟩]).1.active
      = false := by
  have h := vue_C2_subscription_invariant
    ⟨1, true, [0], [], [0], []⟩ [⟨0, [1]⟩, ⟨2, []⟩] [2]
    ⟨9, true, [], [], [], []⟩
    ⟨rfl, rfl, by decide, by decide⟩ rfl
    (by unfold SubsOnce; decide) (by unfold QuiescentInv; decide)
    rfl (by decide) (by unfold QuiescentInv; decide)
  exact ⟨h.2.1, h.2.2.2.1⟩

/-- C3: after `cleanupDeps` returns at the end of a `get`, the
next-generation sets `newDeps`/`newDepIds` are empty, `deps` holds exactly
the deps read during that `get`, and the watcher has been removed from the
subs of every dep of the old generation that was not read again. -/
theorem vue_C3_cleanup_after_get
    (w : Watcher) (store : DepStore) (reads : List Nat)
    (hwf : WatcherWF w) (hq : w.newDeps = [])
    (hso : SubsOnce w store) (hqi : QuiescentInv w store) :
    (w.get store reads).1.newDeps = [] ∧
    (w.get store reads).1.newDepIds = [] ∧
    (∀ x, x ∈ (w.get store reads).1.deps ↔ x ∈ reads) ∧
    (∀ d ∈ (w.get store reads).2,
      d.id ∈ w.deps → d.id ∉ reads → w.id ∉ d.subs) := by
  obtain ⟨gn, gn2, _, _, _, gmem, _, _, grem, _⟩ :=
    get_spec w store reads hwf hq hso hqi
  exact ⟨gn, gn2, gmem, grem⟩

theorem vue_C3_witness :
    (∀ x, x ∈ (Watcher.get ⟨1, true, [0, 2], [], [0, 2], []⟩
        [⟨0, [1]⟩, ⟨2, [1]⟩, ⟨3, []⟩] [2, 3]).1.deps ↔ x ∈ [2, 3]) ∧
    (∀ d ∈ (Watcher.get ⟨1, true, [0, 2], [], [0, 2], []⟩
        [⟨0, [1]⟩, ⟨2, [1]⟩, ⟨3, []⟩] [2, 3]).2,
      d.id ∈ [0, 2] → d.id ∉ [2, 3] → 1 ∉ d.subs) := by
  have h := vue_C3_cleanup_after_get
    ⟨1, true, [0, 2], [], [0, 2], []⟩ [⟨0, [1]⟩, ⟨2, [1]⟩, ⟨3, []⟩] [2, 3]
    ⟨rfl, rfl, by decide, by decide⟩ rfl
    (by unfold SubsOnce; decide) (by unfold QuiescentInv; decide)
  exact ⟨h.2.2.1, h.2.2.2⟩

/-! ### Wrapped array mutation methods (src/core/observer: `array.js`,
`mutator`, lines 493-520)

The seven patched methods dispatch to the original `Array.prototype`
behaviour, which is an external builtin; it is modelled here over lists
(`origApply`).  The wrapper (`mutator`) is translated from the source: call
the original, compute `inserted` for `push`/`unshift`/`splice`, observe the
inserted elements (`ob.observeArray(inserted)`, modelled as a log of the
values passed to `observe`), then `ob.dep.notify()` exactly once, and return
the original's result.
-/

inductive ArrayMethod : Type where
  | push | pop | shift | unshift | splice | sort | reverse
deriving DecidableEq, Repr

inductive JSResult : Type where
  | val (v : JSVal)
  | arr (vs : List JSVal)
deriving DecidableEq, Repr

/-- `ToIntegerOrInfinity` restricted to the model's values: numbers map to
themselves, everything else (NaN, undefined, ...) to 0.  (External builtin
coercion; the claims do not depend on string-to-number parsing.) -/
def jsToInt : JSVal → Int
  | JSVal.num n => n
  | _ => 0

/-- String conversion used by the default sort comparator and by object key
lookup.  (External builtin.) -/
def jsToString : JSVal → String
  | JSVal.num n => toString n
  | JSVal.nan => "NaN"
  | JSVal.str s => s
  | JSVal.bool b => if b then "true" else "false"
  | JSVal.undef => "undefined"
  | JSVal.nullv => "null"
  | JSVal.ref r => "ref#" ++ toString r

def insertSorted (a : JSVal) : List JSVal → List JSVal
  | [] => [a]
  | b :: l =>
      if jsToString a ≤ jsToString b then a :: b :: l else b :: insertSorted a l

/-- `Array.prototype.sort` with the default comparator (string order);
modelled as an insertion sort.  (External builtin; only the fact that it is
`this`-mutating and returns the array matters to the claims.) -/
def jsSort : List JSVal → List JSVal
  | [] => []
  | a :: l => insertSorted a (jsSort l)

/-- `Array.prototype.splice(start, deleteCount, ...items)` — external
builtin: clamp `start` and `deleteCount` to the array bounds, remove, insert
`items`, return the removed elements. -/
def spliceCore (xs : List JSVal) (args : List JSVal) : List JSVal × List JSVal :=
  let len : Int := Int.ofNat xs.length
  let start := jsToInt (args.headD JSVal.undef)
  let actualStart : Nat :=
    (if start < 0 then max (len + start) 0 else min start len).toNat
  let dc : Nat :=
    if args.length = 0 then 0
    else if args.length = 1 then xs.length - actualStart
    else (min (max (jsToInt (args.getD 1 JSVal.undef)) 0)
              (len - Int.ofNat actualStart)).toNat
  let items := args.drop 2
  let removed := (xs.drop actualStart).take dc
  (xs.take actualStart ++ items ++ xs.drop (actualStart + dc), removed)

/-- The original `Array.prototype` methods (`const original =
arrayProto[method]`), as pure functions from (contents, arguments) to
(new contents, returned value).  External builtins. -/
def origApply : ArrayMethod → List JSVal → List JSVal → List JSVal × JSResult
  | ArrayMethod.push, xs, args =>
      (xs ++ args, JSResult.val (JSVal.num (Int.ofNat (xs.length + args.length))))
  | ArrayMethod.pop, xs, _ =>
      (xs.dropLast, JSResult.val (xs.getLast?.getD JSVal.undef))
  | ArrayMethod.shift, xs, _ =>
      (xs.tail, JSResult.val (xs.head?.getD JSVal.undef))
  | ArrayMethod.unshift, xs, args =>
      (args ++ xs, JSResult.val (JSVal.num (Int.ofNat (args.length + xs.length))))
  | ArrayMethod.splice, xs, args =>
      ((spliceCore xs args).1, JSResult.arr (spliceCore xs args).2)
  | ArrayMethod.sort, xs, _ => (jsSort xs, JSResult.arr (jsSort xs))
  | ArrayMethod.reverse, xs, _ => (xs.reverse, JSResult.arr xs.reverse)

/-- An observed array: its contents, the log of values handed to
`observe` via `ob.observeArray`, and the number of `ob.dep.notify()` calls. -/
structure ObservedArray : Type where
  value : List JSVal
  observedLog : List JSVal
  notifyCount : Nat
deriving DecidableEq, Repr

/-- `Observer.observeArray(items)`: `observe(items[i])` for each item. -/
def observeArrayLog (st : ObservedArray) (items : List JSVal) : ObservedArray :=
  { st with observedLog := st.observedLog ++ items }

/-- The wrapper installed on `arrayMethods[method]` (lines 493-520):
`const result = original.apply(this, args)`, compute `inserted` by the
switch, `if (inserted) ob.observeArray(inserted)`, `ob.dep.notify()`,
`return result`. -/
def mutator (m : ArrayMethod) (st : ObservedArray) (args : List JSVal) :
    ObservedArray × JSResult :=
  let r := origApply m st.value args
  let st1 := { st with value := r.1 }
  let inserted : Option (List JSVal) :=
    match m with
    | ArrayMethod.push => some args
    | ArrayMethod.unshift => some args
    | ArrayMethod.splice => some (args.drop 2)
    | _ => none
  let st2 :=
    match inserted with
    | some ins => observeArrayLog st1 ins
    | none => st1
  ({ st2 with notifyCount := st2.notifyCount + 1 }, r.2)

/-- C4: each wrapped mutation method first applies the original
`Array.prototype` behaviour to the contents and returns exactly the
original's result; only `push`, `unshift` and `splice` pass the newly
inserted elements (`args`, `args`, `args.slice(2)` respectively) to
`observeArray`; and the array Observer's own `dep.notify()` runs exactly
once per call. -/
theorem vue_C4_array_mutator (m : ArrayMethod) (st : ObservedArray)
    (args : List JSVal) :
    (mutator m st args).1.value = (origApply m st.value args).1 ∧
    (mutator m st args).2 = (origApply m st.value args).2 ∧
    (mutator m st args).1.notifyCount = st.notifyCount + 1 ∧
    (mutator m st args).1.observedLog = st.observedLog ++
      (match m with
       | ArrayMethod.push => args
       | ArrayMethod.unshift => args
       | ArrayMethod.splice => args.drop 2
       | _ => []) := by
  cases m <;> simp [mutator, observeArrayLog]

/-! ### `set(target, key, val)` (src/core/observer: `set`, lines 352-397)

The possible targets: `undefined`/`null`, a primitive, an array (with or
without an `__ob__`), or a plain object (with an `_isVue` marker flag and an
optional `__ob__` whose `vmCount` counts the instances using it as root
`$data`).  Keys are modelled as strings (JS object keys); an array index is
a key that parses as a natural number (`isValidArrayIndex`).

The dev-mode warning for undefined/primitive targets does not return; the
subsequent `key in target` expression then throws a `TypeError` on such a
target, which the model records in `threw` (no mutation has happened by that
point).  The model assumes `key` is not a key of `Object.prototype`.
-/

structure Ob : Type where
  vmCount : Nat
  notifyCount : Nat
deriving DecidableEq, Repr

inductive SetTarget : Type where
  | undef
  | prim (v : JSVal)
  | arr (xs : List JSVal) (ob : Option Ob)
  | obj (fields : List (String × JSVal)) (isVue : Bool) (ob : Option Ob)
deriving DecidableEq, Repr

structure SetOutcome : Type where
  target : SetTarget
  warned : Bool
  threw : Bool
  /-- did `ob.dep.notify()` run (directly, or through the wrapped `splice`) -/
  obNotified : Bool
  result : Option JSVal
deriving DecidableEq, Repr

/-- `isValidArrayIndex(key)` for string keys: a canonical base-10 natural. -/
def isValidArrayIndexKey (key : String) : Bool :=
  key.toNat?.isSome

/-- The truthiness of `ob && ob.vmCount`. -/
def obRootGuard : Option Ob → Bool
  | some o => o.vmCount != 0
  | none => false

def setOp (target : SetTarget) (key : String) (val : JSVal) : SetOutcome :=
  -- dev branch: `isUndef(target) || isPrimitive(target)` warns (and falls through)
  match target with
  | SetTarget.undef =>
      -- `Array.isArray` is false and `key in target` throws on undefined/null
      { target := SetTarget.undef, warned := true, threw := true,
        obNotified := false, result := none }
  | SetTarget.prim v =>
      -- same: warn, then `key in target` throws on a primitive
      { target := SetTarget.prim v, warned := true, threw := true,
        obNotified := false, result := none }
  | SetTarget.arr xs ob =>
      match key.toNat? with
      | some n =>
          -- `target.length = Math.max(target.length, key); target.splice(key, 1, val);`
          -- the splice goes through the wrapped mutator, so an observed array
          -- notifies its ob.dep once
          let xs2 :=
            if n < xs.length then xs.set n val
            else xs ++ List.replicate (n - xs.length) JSVal.undef ++ [val]
          { target := SetTarget.arr xs2
              (ob.map fun o => { o with notifyCount := o.notifyCount + 1 }),
            warned := false, threw := false,
            obNotified := ob.isSome, result := some val }
      | none =>
          -- a non-index key on an array behaves like the object path below;
          -- expando properties of arrays are outside the modelled state, so
          -- only the warn/no-op cases are represented
          if obRootGuard ob then
            { target := SetTarget.arr xs ob, warned := true, threw := false,
              obNotified := false, result := some val }
          else
            { target := SetTarget.arr xs ob, warned := false, threw := false,
              obNotified := false, result := some val }
  | SetTarget.obj fields isVue ob =>
      if (fields.lookup key).isSome then
        -- `key in target`: plain assignment through the existing property
        -- (a reactive key's own dep may notify inside its setter; the
        -- structural ob.dep does not)
        { target := SetTarget.obj
            (fields.map fun p => if p.1 = key then (p.1, val) else p) isVue ob,
          warned := false, threw := false, obNotified := false,
          result := some val }
      else if isVue || obRootGuard ob then
        -- `target._isVue || (ob && ob.vmCount)`: warn and return val, no change
        { target := SetTarget.obj fields isVue ob, warned := true,
          threw := false, obNotified := false, result := some val }
      else
        match ob with
        | none =>
            -- not reactive: plain `target[key] = val`
            { target := SetTarget.obj (fields ++ [(key, val)]) isVue none,
              warned := false, threw := false, obNotified := false,
              result := some val }
        | some o =>
            -- `defineReactive(ob.value, key, val); ob.dep.notify(); return val`
            { target := SetTarget.obj (fields ++ [(key, val)]) isVue
                (some { o with notifyCount := o.notifyCount + 1 }),
              warned := false, threw := false, obNotified := true,
              result := some val }

/-- C5: `set` on an undefined/null or primitive target warns and leaves the
target unchanged (and notifies nobody — the call then aborts on `key in
target`); `set` of a key not already present on a Vue instance
(`target._isVue`) or on a root `$data` object (observer with `vmCount > 0`)
warns and returns `val` without adding the key and without notifying any
subscriber. -/
theorem vue_C5_set_edge_cases (key : String) (val : JSVal) :
    (∀ v : JSVal,
      (setOp (SetTarget.prim v) key val).warned = true ∧
      (setOp (SetTarget.prim v) key val).target = SetTarget.prim v ∧
      (setOp (SetTarget.prim v) key val).obNotified = false) ∧
    ((setOp SetTarget.undef key val).warned = true ∧
      (setOp SetTarget.undef key val).target = SetTarget.undef ∧
      (setOp SetTarget.undef key val).obNotified = false) ∧
    (∀ (fields : List (String × JSVal)) (isVue : Bool) (ob : Option Ob),
      fields.lookup key = none →
      (isVue = true ∨ (∃ o, ob = some o ∧ 0 < o.vmCount)) →
      (setOp (SetTarget.obj fields isVue ob) key val).warned = true ∧
      (setOp (SetTarget.obj fields isVue ob) key val).target
        = SetTarget.obj fields isVue ob ∧
      (setOp (SetTarget.obj fields isVue ob) key val).obNotified = false ∧
      (setOp (SetTarget.obj fields isVue ob) key val).result = some val) := by
  refine ⟨fun v => ⟨rfl, rfl, rfl⟩, ⟨rfl, rfl, rfl⟩, ?_⟩
  intro fields isVue ob hmiss hroot
  have hguard : (isVue || obRootGuard ob) = true := by
    rcases hroot with h | ⟨o, rfl, ho⟩
    · rw [h]; simp
    · have : obRootGuard (some o) = true := by
        simp only [obRootGuard, bne_iff_ne]
        omega
      rw [this]
      simp
  simp only [setOp, hmiss, Option.isSome_none, Bool.false_eq_true, if_false,
    hguard, if_true]
  exact ⟨by trivial, by trivial, by trivial, by trivial⟩

theorem vue_C5_witness :
    ([("a", JSVal.num 1)].lookup "b" = none ∧
      (true = true ∨ ∃ o, (none : Option Ob) = some o ∧ 0 < o.vmCount)) ∧
    (setOp (SetTarget.obj [("a", JSVal.num 1)] true none) "b" (JSVal.num 2)).warned
      = true ∧
    (setOp (SetTarget.obj [("a", JSVal.num 1)] true none) "b" (JSVal.num 2)).target
      = SetTarget.obj [("a", JSVal.num 1)] true none := by
  refine ⟨⟨by decide, Or.inl rfl⟩, ?_, ?_⟩
  · exact ((vue_C5_set_edge_cases "b" (JSVal.num 2)).2.2
      [("a", JSVal.num 1)] true none (by decide) (Or.inl rfl)).1
  · exact ((vue_C5_set_edge_cases "b" (JSVal.num 2)).2.2
      [("a", JSVal.num 1)] true none (by decide) (Or.inl rfl)).2.1

/-! ### Computed properties (src/core/instance/state.js:
`createComputedGetter`, lines 361-404; part_001 `Watcher.update` lines
252-273, `Watcher.evaluate` lines 349-353)

A computed property owns a lazy watcher.  The constructor sets
`this.dirty = this.lazy` (true) and skips the initial evaluation
(`this.value = this.lazy ? undefined : this.get()`).  The modelled state
tracks `dirty`, the cached `value`, and how many times the user getter ran;
the getter's result is a parameter `g` (its dependencies do not change
between notifications, which is the claim's premise "without any dependency
notification in between").  The `if (Dep.target) watcher.depend()` step of
`computedGetter` only forwards subscriptions to the enclosing watcher (see
the Watcher section) and touches none of these fields.
-/

structure CWatcher : Type where
  dirty : Bool
  value : JSVal
  evalCount : Nat
deriving DecidableEq, Repr

/-- A lazy (computed) watcher right after construction:
`dirty = lazy = true`, `value = undefined`, user getter never run. -/
def CWatcher.start : CWatcher :=
  { dirty := true, value := JSVal.undef, evalCount := 0 }

/-- `evaluate()`: `this.value = this.get(); this.dirty = false` — `get`
runs the user getter exactly once. -/
def CWatcher.evaluate (g : JSVal) (w : CWatcher) : CWatcher :=
  { dirty := false, value := g, evalCount := w.evalCount + 1 }

/-- The getter returned by `createComputedGetter`:
`if (watcher.dirty) watcher.evaluate(); ...; return watcher.value`. -/
def computedGetter (g : JSVal) (w : CWatcher) : CWatcher × JSVal :=
  let w2 := if w.dirty then CWatcher.evaluate g w else w
  (w2, w2.value)

/-- `Watcher.update()` for a lazy watcher: `this.dirty = true` (the only
place outside construction where `dirty` becomes true). -/
def CWatcher.update (w : CWatcher) : CWatcher :=
  { w with dirty := true }

/-- `n` consecutive reads of the computed property. -/
def readComputed (g : JSVal) : Nat → CWatcher → CWatcher
  | 0, w => w
  | n + 1, w => readComputed g n (computedGetter g w).1

theorem computedGetter_of_clean (g : JSVal) (w : CWatcher)
    (h : w.dirty = false) : computedGetter g w = (w, w.value) := by
  simp [computedGetter, h]

theorem readComputed_of_clean (g : JSVal) (n : Nat) (w : CWatcher)
    (h : w.dirty = false) : readComputed g n w = w := by
  induction n with
  | zero => rfl
  | succ n ih =>
      show readComputed g n (computedGetter g w).1 = w
      rw [computedGetter_of_clean g w h]
      exact ih

/-- C9: a lazy watcher starts with `dirty = true` and `value = undefined`;
reading the computed `n ≥ 1` times with no dependency notification in
between runs the user getter exactly once (the first read evaluates and
clears `dirty`; later reads return the cached value), every read returns the
getter's value, and only `update()` (a dep notification on a lazy watcher)
makes `dirty` true again. -/
theorem vue_C9_computed_caching (g : JSVal) (n : Nat) (h : 1 ≤ n) :
    CWatcher.start.dirty = true ∧
    CWatcher.start.value = JSVal.undef ∧
    (readComputed g n CWatcher.start).evalCount = 1 ∧
    (readComputed g n CWatcher.start).dirty = false ∧
    (∀ w : CWatcher, (computedGetter g w).2 = g ∨ (w.dirty = false ∧
      (computedGetter g w).2 = w.value)) ∧
    (∀ w : CWatcher, (computedGetter g w).1.dirty = false ∨
      (computedGetter g w).1.dirty = w.dirty) ∧
    (∀ w : CWatcher, (CWatcher.update w).dirty = true) := by
  obtain ⟨m, rfl⟩ : ∃ m, n = m + 1 := ⟨n - 1, by omega⟩
  have hfirst : (computedGetter g CWatcher.start).1 =
      { dirty := false, value := g, evalCount := 1 } := by
    simp [computedGetter, CWatcher.start, CWatcher.evaluate]
  have hall : readComputed g (m + 1) CWatcher.start =
      { dirty := false, value := g, evalCount := 1 } := by
    show readComputed g m (computedGetter g CWatcher.start).1 = _
    rw [hfirst]
    exact readComputed_of_clean g m _ rfl
  refine ⟨rfl, rfl, by rw [hall], by rw [hall], ?_, ?_, fun w => rfl⟩
  · intro w
    by_cases hd : w.dirty
    · left
      simp [computedGetter, hd, CWatcher.evaluate]
    · right
      rw [computedGetter_of_clean g w (by simpa using hd)]
      exact ⟨by simpa using hd, rfl⟩
  · intro w
    by_cases hd : w.dirty
    · left
      simp [computedGetter, hd, CWatcher.evaluate]
    · right
      rw [computedGetter_of_clean g w (by simpa using hd)]

theorem vue_C9_witness :
    (1 ≤ 3) ∧
    (readComputed (JSVal.num 7) 3 CWatcher.start).evalCount = 1 ∧
    (readComputed (JSVal.num 7) 3 CWatcher.start).dirty = false := by
  have h := vue_C9_computed_caching (JSVal.num 7) 3 (by decide)
  exact ⟨by decide, h.2.2.1, h.2.2.2.1⟩

/-! ### Virtual nodes (src/core/vdom/patch.js)

A vnode's identity (JS object identity, compared by `===` in
`oldVnode === vnode`) is a `vid`; host nodes are numbers.  `data` carries the
`attrs.type` chain needed by `sameInputType` plus presence flags for the
per-vnode user hooks used by `patchVnode`, `createElm` and `removeVnodes`.
Async component factories are identified by a `fid` (`===` comparison) with
definedness flags for their `error` and `resolved` fields.
-/

structure AsyncF : Type where
  fid : Nat
  errorDef : Bool
  resolvedDef : Bool
deriving DecidableEq, Repr

structure VAttrs : Type where
  /-- `attrs.type`; `JSVal.undef` when the attribute is absent -/
  type : JSVal
deriving DecidableEq, Repr

structure VData : Type where
  attrs : Option VAttrs
  hookInit : Bool
  hookPrepatch : Bool
  hookUpdate : Bool
  hookPostpatch : Bool
  hookDestroy : Bool
  hookRemove : Bool
deriving DecidableEq, Repr

/-- The empty vnode data `{}`. -/
def VData.empty : VData :=
  { attrs := none, hookInit := false, hookPrepatch := false,
    hookUpdate := false, hookPostpatch := false, hookDestroy := false,
    hookRemove := false }

structure VNCore : Type where
  vid : Nat
  key : JSVal
  tag : Option String
  isComment : Bool
  data : Option VData
  text : Option String
  elm : Option Nat
  isStatic : Bool
  isCloned : Bool
  isOnce : Bool
  isAsyncPlaceholder : Bool
  asyncFactory : Option AsyncF
  componentInstance : Option Nat
deriving DecidableEq, Repr

inductive VN : Type where
  | mk (core : VNCore) (children : Option (List VN))

def VN.core : VN → VNCore
  | VN.mk c _ => c

def VN.children : VN → Option (List VN)
  | VN.mk _ cs => cs

@[simp]
theorem VN.core_mk (c : VNCore) (cs : Option (List VN)) :
    (VN.mk c cs).core = c := rfl

@[simp]
theorem VN.children_mk (c : VNCore) (cs : Option (List VN)) :
    (VN.mk c cs).children = cs := rfl

/-- The chain `isDef((i = a.data)) && isDef((i = i.attrs)) && i.type`
evaluates to the boolean `false` if a link is undefined, else to the value
of `attrs.type` (which may itself be `undefined`). -/
def typeChain (a : VN) : JSVal :=
  match a.core.data with
  | none => JSVal.bool false
  | some d =>
      match d.attrs with
      | none => JSVal.bool false
      | some at2 => at2.type

/-- `isTextInputType = makeMap('text,number,password,search,email,tel,url')`. -/
def isTextInputType (v : JSVal) : Bool :=
  match v with
  | JSVal.str s =>
      s = "text" || s = "number" || s = "password" || s = "search" ||
      s = "email" || s = "tel" || s = "url"
  | _ => false

/-- `sameInputType(a, b)` (patch.js lines 53-59). -/
def sameInputType (a b : VN) : Bool :=
  if a.core.tag ≠ some "input" then true
  else
    strictEq (typeChain a) (typeChain b) ||
      (isTextInputType (typeChain a) && isTextInputType (typeChain b))

/-- `sameVnode(a, b)` (patch.js lines 36-51).  The async-placeholder
disjunct compares the factories by identity and requires `isUndef(
b.asyncFactory.error)`; when both factories are undefined the source would
fault reading `.error` of undefined (unreachable for real placeholders), so
the model lets the disjunct be false there. -/
def sameVnode (a b : VN) : Bool :=
  strictEq a.core.key b.core.key &&
  ((a.core.tag == b.core.tag &&
    a.core.isComment == b.core.isComment &&
    a.core.data.isSome == b.core.data.isSome &&
    sameInputType a b) ||
   (a.core.isAsyncPlaceholder &&
    (match a.core.asyncFactory, b.core.asyncFactory with
     | some fa, some fb => fa.fid == fb.fid && !fb.errorDef
     | _, _ => false)))

/-- C6 counterexample: the claimed "iff" misses the async-placeholder
disjunct.  A comment async placeholder and a `div` vnode carrying the same
unerrored factory are `sameVnode` even though their tags differ. -/
theorem vue_C6_counterexample :
    sameVnode
      (VN.mk ⟨0, JSVal.undef, none, true, none, some "", none,
        false, false, false, true, some ⟨5, false, false⟩, none⟩ none)
      (VN.mk ⟨1, JSVal.undef, some "div", false, none, none, none,
        false, false, false, false, some ⟨5, false, false⟩, none⟩ none) = true ∧
    (VN.mk ⟨0, JSVal.undef, none, true, none, some "", none,
        false, false, false, true, some ⟨5, false, false⟩, none⟩ none).core.tag ≠
    (VN.mk ⟨1, JSVal.undef, some "div", false, none, none, none,
        false, false, false, false, some ⟨5, false, false⟩, none⟩ none).core.tag := by
  exact ⟨by decide, by decide⟩

/-- C6 (amended): `sameVnode a b` holds iff the keys are strictly equal
(`===`, so equal and not `NaN`) and EITHER tag, comment-ness, definedness of
`data` all match and, for `a.tag === 'input'`, the `data.attrs.type` chains
match (strictly equal and not `NaN`, or both recognised text-input types) —
OR `a` is an async placeholder whose factory is identical (`===`) to `b`'s
and `b`'s factory has no `error`. -/
theorem vue_C6_sameVnode (a b : VN) :
    sameVnode a b = true ↔
      ((a.core.key = b.core.key ∧ a.core.key ≠ JSVal.nan) ∧
       ((a.core.tag = b.core.tag ∧ a.core.isComment = b.core.isComment ∧
         a.core.data.isSome = b.core.data.isSome ∧
         (a.core.tag = some "input" →
           (typeChain a = typeChain b ∧ typeChain a ≠ JSVal.nan) ∨
           (isTextInputType (typeChain a) = true ∧
            isTextInputType (typeChain b) = true))) ∨
        (a.core.isAsyncPlaceholder = true ∧
         ∃ fa fb, a.core.asyncFactory = some fa ∧
           b.core.asyncFactory = some fb ∧ fa.fid = fb.fid ∧
           fb.errorDef = false))) := by
  unfold sameVnode sameInputType
  simp only [Bool.and_eq_true, Bool.or_eq_true, strictEq_iff, beq_iff_eq,
    Bool.not_eq_eq_eq_not, Bool.not_true]
  constructor
  · rintro ⟨hkey, hrest⟩
    refine ⟨hkey, ?_⟩
    rcases hrest with ⟨⟨⟨htag, hcom⟩, hdata⟩, hinput⟩ | ⟨hasync, hfac⟩
    · left
      refine ⟨htag, hcom, hdata, ?_⟩
      intro hin
      rw [if_neg (by simp [hin])] at hinput
      rcases Bool.or_eq_true_iff.mp hinput with h | h
      · exact Or.inl (strictEq_iff _ _ |>.mp h)
      · exact Or.inr (Bool.and_eq_true_iff.mp h)
    · right
      refine ⟨hasync, ?_⟩
      rcases hfa : a.core.asyncFactory with _ | fa <;>
        rcases hfb : b.core.asyncFactory with _ | fb <;>
        rw [hfa, hfb] at hfac <;> simp at hfac
      obtain ⟨h1, h2⟩ := hfac
      exact ⟨fa, fb, rfl, rfl, h1, h2⟩
  · rintro ⟨hkey, hrest⟩
    refine ⟨hkey, ?_⟩
    rcases hrest with ⟨htag, hcom, hdata, hinput⟩ | ⟨hasync, fa, fb, hfa, hfb, hfid, herr⟩
    · left
      refine ⟨⟨⟨htag, hcom⟩, hdata⟩, ?_⟩
      by_cases hin : a.core.tag = some "input"
      · rw [if_neg (by simp [hin])]
        rcases hinput hin with h | ⟨h1, h2⟩
        · exact Bool.or_eq_true_iff.mpr (Or.inl (strictEq_iff _ _ |>.mpr h))
        · exact Bool.or_eq_true_iff.mpr (Or.inr (Bool.and_eq_true_iff.mpr ⟨h1, h2⟩))
      · rw [if_pos (by simp [hin])]
    · right
      rw [hfa, hfb]
      exact ⟨hasync, by simp [hfid, herr]⟩

/-! ### The patch machinery (src/core/vdom/patch.js, `createPatchFunction`)

The injected host-DOM facade (`nodeOps`) and module hooks (`cbs`) are
modelled as an event log; host nodes are allocated from a counter.  Module
fan-out loops (`for cbs.stage`) are recorded as a single `moduleHook` event
per call site (the number of injected modules is opaque).  Events tagged as
DOM operations are exactly the facade's mutating primitives.

All tree-recursive functions take a fuel parameter and return `none` when it
runs out (and on the few paths where the JS would fault on undefined, noted
inline); every theorem about them is conditional on a `some` result or uses
only fuel-independent prefixes of the computation.
-/

inductive Ev : Type where
  | createdNode (vid elm : Nat)
  | insertedNode (elm : Nat) (parent : Option Nat) (ref : Option Nat)
  | removedNode (elm : Option Nat)
  | movedAfter (elm anchor : Option Nat)
  | movedBefore (elm ref : Option Nat)
  | textSet (elm : Option Nat) (s : String)
  | moduleHook (stage : String) (vid : Nat)
  | userHook (name : String) (vid : Nat)
deriving DecidableEq, Repr

/-- Host-DOM operations (the facade's mutating primitives), as opposed to
module/user hook invocations. -/
def Ev.isDomOp : Ev → Bool
  | Ev.createdNode _ _ => true
  | Ev.insertedNode _ _ _ => true
  | Ev.removedNode _ => true
  | Ev.movedAfter _ _ => true
  | Ev.movedBefore _ _ => true
  | Ev.textSet _ _ => true
  | Ev.moduleHook _ _ => false
  | Ev.userHook _ _ => false

structure PS : Type where
  events : List Ev
  nextNode : Nat
deriving DecidableEq, Repr

def PS.log (ps : PS) (e : Ev) : PS :=
  { ps with events := ps.events ++ [e] }

def PS.fresh (ps : PS) : PS × Nat :=
  ({ ps with nextNode := ps.nextNode + 1 }, ps.nextNode)

/-- JS array read `xs[i]` with an integer index (undefined when out of
range). -/
def getI {α : Type} (xs : List α) (i : Int) : Option α :=
  if i < 0 then none else xs[i.toNat]?

/-- JS array write `xs[i] = a` (in-range only; callers stay in range). -/
def setI {α : Type} (xs : List α) (i : Int) (a : α) : List α :=
  if 0 ≤ i then xs.set i.toNat a else xs

/-- Read of a possibly-cleared old-children slot: both an out-of-range read
and a cleared slot give JS `undefined`. -/
def getSlot (xs : List (Option VN)) (i : Int) : Option VN :=
  match getI xs i with
  | some s => s
  | none => none

/-- `insert(parent, elm, ref)` (patch.js lines 328-342).  The
`nodeOps.parentNode(ref) === parent` guard is a host-geometry read that the
model does not track; the insertBefore is recorded whenever a ref is
given. -/
def insertNode (ps : PS) (parent : Option Nat) (elm : Nat) (ref : Option Nat) : PS :=
  match parent with
  | none => ps
  | some p =>
      match ref with
      | some r => ps.log (Ev.insertedNode elm (some p) (some r))
      | none => ps.log (Ev.insertedNode elm (some p) none)

/-- Modelled from the spec: `cloneVNode` (src/core/vdom/vnode.js, not among
the provided sources).  Per the spec's vnode description and the call sites
in `patchVnode`/`createElm`, the clone is a fresh vnode object carrying the
same fields (children list included) with `isCloned` set. -/
def cloneVN (ps : PS) (v : VN) : PS × VN :=
  let f := ps.fresh
  (f.1, VN.mk { v.core with vid := f.2, isCloned := true } v.children)

/-- `isPatchable(vnode)`: the source walks `componentInstance._vnode` chains
to the rendered root; component instances are opaque ids in the model, so
this is the plain-vnode case `isDef(vnode.tag)`. -/
def isPatchableB (v : VN) : Bool :=
  v.core.tag.isSome

/-- Element-wise object identity of two children arrays (approximates the
`oldCh !== ch` reference check: vnode identity is `vid` equality). -/
def sameArrayByIds : List VN → List VN → Bool
  | [], [] => true
  | a :: s, b :: t => a.core.vid == b.core.vid && sameArrayByIds s t
  | _, _ => false

/-- is the key defined (`isDef`: not undefined, not null)? -/
def keyIsDef (k : JSVal) : Bool :=
  !(k == JSVal.undef) && !(k == JSVal.nullv)

/-- `createKeyToOldIdx(children, beginIdx, endIdx)` (patch.js lines 61-69):
`{key: index}` over the defined keys; a JS property write stringifies the
key and a later index overwrites an earlier one (the list is built with the
later entry in front so that lookup finds it).  Slots are all defined when
the map is built (it is built before any slot is cleared). -/
def keyMapRange (oldChS : List (Option VN)) (b e : Int) : List (String × Int) :=
  (List.range (e + 1 - b).toNat).foldl
    (fun m k =>
      let i := b + Int.ofNat k
      match getSlot oldChS i with
      | some v =>
          if keyIsDef v.core.key then (jsToString v.core.key, i) :: m else m
      | none => m)
    []

/-- `findIdxInOld(node, oldCh, start, end)` (patch.js lines 707-712): the
first index in `[start, end)` — note the exclusive upper bound in the
source — holding a defined vnode that is `sameVnode` with `node`. -/
def findIdxInOld (node : VN) (oldChS : List (Option VN)) (start endI : Int) :
    Option Int :=
  ((List.range (endI - start).toNat).map (fun k => start + Int.ofNat k)).find?
    (fun i =>
      match getSlot oldChS i with
      | some c => sameVnode node c
      | none => false)

/-- `removeAndInvokeRemoveHook(ch)` as called (without a recursive `rm`)
from `removeVnodes`: with defined `data`, run the module remove hooks and
the user remove hook, and remove the node once the `createRmCb` listener
count drains; without `data`, remove the node directly.  The recursion into
a component root (`componentInstance._vnode`) is outside the modelled
state. -/
def removeAndInvokeRemoveHook (ps : PS) (vnode : VN) : PS :=
  match vnode.core.data with
  | some d =>
      let ps1 := ps.log (Ev.moduleHook "remove" vnode.core.vid)
      let ps2 := if d.hookRemove
        then ps1.log (Ev.userHook "remove" vnode.core.vid) else ps1
      ps2.log (Ev.removedNode vnode.core.elm)
  | none => ps.log (Ev.removedNode vnode.core.elm)

/-- The mutable state of `updateChildren`'s two-pointer loop: the two
children arrays (old slots may be cleared to undefined), the four indices,
the four CACHED edge vnodes (the source caches them in locals and re-reads
the arrays only on advance), the lazily built key map, and the event log. -/
structure UC : Type where
  oldChS : List (Option VN)
  newChS : List VN
  os : Int
  oe : Int
  ns : Int
  ne : Int
  osv : Option VN
  oev : Option VN
  nsv : Option VN
  nev : Option VN
  km : Option (List (String × Int))
  ps : PS

def ucInit (ps : PS) (oldCh newCh : List VN) : UC :=
  { oldChS := oldCh.map some, newChS := newCh,
    os := 0, oe := Int.ofNat oldCh.length - 1,
    ns := 0, ne := Int.ofNat newCh.length - 1,
    osv := getSlot (oldCh.map some) 0,
    oev := getSlot (oldCh.map some) (Int.ofNat oldCh.length - 1),
    nsv := getI newCh 0,
    nev := getI newCh (Int.ofNat newCh.length - 1),
    km := none, ps := ps }

mutual

/-- `createElm(vnode, queue, parentElm, refElm, nested, ownerArray, index)`
(patch.js lines 138-246): clone a reused vnode when it sits in an owner
array, try `createComponent` (init hook, then — if an instance was
mounted — `initComponent` plus insert), otherwise create the element
(children first, then create hooks, then insert), or a comment/text node.
The returned vnode carries the updated `elm`/children; the caller owning an
array writes it back. -/
def createElmM (fuel : Nat) (ps : PS) (vnode : VN)
    (parentElm refElm : Option Nat) (ownerDefined : Bool) :
    Option (PS × VN) :=
  match fuel with
  | 0 => none
  | fuel + 1 =>
    let pc := if vnode.core.elm.isSome && ownerDefined
      then cloneVN ps vnode else (ps, vnode)
    let ps0 := pc.1
    let v0 := pc.2
    let hasInit : Bool := match v0.core.data with
      | some d => d.hookInit
      | none => false
    let ps1 := if hasInit then ps0.log (Ev.userHook "init" v0.core.vid) else ps0
    if v0.core.data.isSome && v0.core.componentInstance.isSome then
      -- a component vnode whose init hook mounted a child instance:
      -- `initComponent` (create hooks when patchable) + insert; the child's
      -- `$el` is a fresh host node
      let f := ps1.fresh
      let ps2 := f.1.log (Ev.createdNode v0.core.vid f.2)
      let ps3 := if isPatchableB v0
        then ps2.log (Ev.moduleHook "create" v0.core.vid) else ps2
      let ps4 := insertNode ps3 parentElm f.2 refElm
      some (ps4, VN.mk { v0.core with elm := some f.2 } v0.children)
    else
      match v0.core.tag with
      | some _ =>
          let f := ps1.fresh
          let ps2 := f.1.log (Ev.createdNode v0.core.vid f.2)
          let step : Option (PS × Option (List VN)) :=
            match v0.children with
            | some cs =>
                match createChildrenM fuel ps2 f.2 cs with
                | some pr => some (pr.1, some pr.2)
                | none => none
            | none =>
                match v0.core.text with
                | some _ =>
                    -- `appendChild(elm, createTextNode(String(text)))`
                    let g := ps2.fresh
                    some ((g.1.log (Ev.createdNode v0.core.vid g.2)).log
                      (Ev.insertedNode g.2 (some f.2) none), none)
                | none => some (ps2, none)
          match step with
          | none => none
          | some pr =>
              let ps4 := if v0.core.data.isSome
                then pr.1.log (Ev.moduleHook "create" v0.core.vid) else pr.1
              let ps5 := insertNode ps4 parentElm f.2 refElm
              some (ps5, VN.mk { v0.core with elm := some f.2 } pr.2)
      | none =>
          if v0.core.isComment then
            let f := ps1.fresh
            let ps2 := f.1.log (Ev.createdNode v0.core.vid f.2)
            some (insertNode ps2 parentElm f.2 refElm,
              VN.mk { v0.core with elm := some f.2 } v0.children)
          else
            let f := ps1.fresh
            let ps2 := f.1.log (Ev.createdNode v0.core.vid f.2)
            some (insertNode ps2 parentElm f.2 refElm,
              VN.mk { v0.core with elm := some f.2 } v0.children)

/-- `createChildren` (patch.js lines 344-371), array case: `createElm` each
child with the vnode's element as parent, null ref, owner array defined. -/
def createChildrenM (fuel : Nat) (ps : PS) (parentId : Nat) (cs : List VN) :
    Option (PS × List VN) :=
  match fuel with
  | 0 => none
  | fuel + 1 =>
    match cs with
    | [] => some (ps, [])
    | c :: rest =>
        match createElmM fuel ps c (some parentId) none true with
        | none => none
        | some pr =>
            match createChildrenM fuel pr.1 parentId rest with
            | none => none
            | some qr => some (qr.1, pr.2 :: qr.2)

/-- `invokeDestroyHook(vnode)` (patch.js lines 445-457): user destroy hook,
module destroy hooks, then recurse into the children. -/
def invokeDestroyHookM (fuel : Nat) (ps : PS) (vnode : VN) : Option PS :=
  match fuel with
  | 0 => none
  | fuel + 1 =>
    let ps1 := match vnode.core.data with
      | some d =>
          let a := if d.hookDestroy
            then ps.log (Ev.userHook "destroy" vnode.core.vid) else ps
          a.log (Ev.moduleHook "destroy" vnode.core.vid)
      | none => ps
    match vnode.children with
    | some cs => destroyListM fuel ps1 cs
    | none => some ps1

def destroyListM (fuel : Nat) (ps : PS) (cs : List VN) : Option PS :=
  match fuel with
  | 0 => none
  | fuel + 1 =>
    match cs with
    | [] => some ps
    | c :: rest =>
        match invokeDestroyHookM fuel ps c with
        | none => none
        | some ps2 => destroyListM fuel ps2 rest

/-- `addVnodes(parentElm, refElm, vnodes, startIdx, endIdx, queue)`
(patch.js lines 418-437): `createElm` every vnode in the index range, each
with the SAME `refElm`; the owner array receives the created vnodes. -/
def addVnodesM (fuel : Nat) (ps : PS) (parentElm refElm : Option Nat)
    (vnodes : List VN) (startIdx endIdx : Int) : Option (PS × List VN) :=
  match fuel with
  | 0 => none
  | fuel + 1 =>
    if startIdx ≤ endIdx then
      match getI vnodes startIdx with
      | some v =>
          match createElmM fuel ps v parentElm refElm true with
          | none => none
          | some pr =>
              addVnodesM fuel pr.1 parentElm refElm
                (setI vnodes startIdx pr.2) (startIdx + 1) endIdx
      | none => none   -- out-of-range read: the JS would fault; callers stay in range
    else some (ps, vnodes)

/-- `removeVnodes(vnodes, startIdx, endIdx)` (patch.js lines 459-472): for
every DEFINED slot in the range, either remove-with-hooks plus destroy hooks
(element vnodes) or plain `removeNode` (text nodes). -/
def removeVnodesM (fuel : Nat) (ps : PS) (vnodes : List (Option VN))
    (startIdx endIdx : Int) : Option PS :=
  match fuel with
  | 0 => none
  | fuel + 1 =>
    if startIdx ≤ endIdx then
      let step : Option PS :=
        match getSlot vnodes startIdx with
        | some ch =>
            if ch.core.tag.isSome then
              invokeDestroyHookM fuel (removeAndInvokeRemoveHook ps ch) ch
            else
              some (ps.log (Ev.removedNode ch.core.elm))
        | none => some ps
      match step with
      | none => none
      | some ps2 => removeVnodesM fuel ps2 vnodes (startIdx + 1) endIdx
    else some ps

/-- `patchVnode(oldVnode, vnode, queue, ownerArray, index, removeOnly)`
(patch.js lines 721-809).  Returns the (possibly cloned) new vnode so the
caller can store it back into its owner array. -/
def patchVnodeM (fuel : Nat) (ps : PS) (old vnode : VN)
    (ownerDefined removeOnly : Bool) : Option (PS × VN) :=
  match fuel with
  | 0 => none
  | fuel + 1 =>
    -- `if (oldVnode === vnode) return`
    if old.core.vid = vnode.core.vid then some (ps, vnode)
    else
      -- `if (isDef(vnode.elm) && isDef(ownerArray)) vnode = ownerArray[index] = cloneVNode(vnode)`
      let pc := if vnode.core.elm.isSome && ownerDefined
        then cloneVN ps vnode else (ps, vnode)
      let ps1 := pc.1
      -- `const elm = vnode.elm = oldVnode.elm`
      let v2 := VN.mk { pc.2.core with elm := old.core.elm } pc.2.children
      let elm := old.core.elm
      if old.core.isAsyncPlaceholder then
        match v2.core.asyncFactory with
        | some f =>
            if f.resolvedDef then
              -- `hydrate(oldVnode.elm, vnode, queue)`: SSR-only; recorded opaquely
              some (ps1.log (Ev.userHook "hydrate" v2.core.vid), v2)
            else
              some (ps1, VN.mk { v2.core with isAsyncPlaceholder := true } v2.children)
        | none => none   -- JS faults reading `.resolved` of undefined
      else
      -- static-tree reuse
      if v2.core.isStatic && old.core.isStatic &&
          strictEq v2.core.key old.core.key &&
          (v2.core.isCloned || v2.core.isOnce) then
        some (ps1, VN.mk { v2.core with componentInstance := old.core.componentInstance }
          v2.children)
      else
        -- `data.hook.prepatch`
        let ps2 := match v2.core.data with
          | some d => if d.hookPrepatch
              then ps1.log (Ev.userHook "prepatch" v2.core.vid) else ps1
          | none => ps1
        -- `for cbs.update; data.hook.update`
        let ps3 :=
          if v2.core.data.isSome && isPatchableB v2 then
            let a := ps2.log (Ev.moduleHook "update" v2.core.vid)
            match v2.core.data with
            | some d => if d.hookUpdate
                then a.log (Ev.userHook "update" v2.core.vid) else a
            | none => a
          else ps2
        let childStep : Option (PS × VN) :=
          match v2.core.text with
          | none =>
              match old.children, v2.children with
              | some ocs, some ncs =>
                  -- `if (oldCh !== ch) updateChildren(elm, oldCh, ch, queue, removeOnly)`
                  if sameArrayByIds ocs ncs then some (ps3, v2)
                  else
                    match updateChildrenM fuel ps3 elm ocs ncs removeOnly with
                    | none => none
                    | some ur => some (ur.1, VN.mk v2.core (some ur.2))
              | none, some ncs =>
                  -- only the new vnode has children
                  let a := if old.core.text.isSome
                    then ps3.log (Ev.textSet elm "") else ps3
                  match addVnodesM fuel a elm none ncs 0
                      (Int.ofNat ncs.length - 1) with
                  | none => none
                  | some pr => some (pr.1, VN.mk v2.core (some pr.2))
              | some ocs, none =>
                  -- only the old vnode has children
                  match removeVnodesM fuel ps3 (ocs.map some) 0
                      (Int.ofNat ocs.length - 1) with
                  | none => none
                  | some ps4 => some (ps4, v2)
              | none, none =>
                  if old.core.text.isSome
                  then some (ps3.log (Ev.textSet elm ""), v2)
                  else some (ps3, v2)
          | some t =>
              if old.core.text ≠ some t
              then some (ps3.log (Ev.textSet elm t), v2)
              else some (ps3, v2)
        match childStep with
        | none => none
        | some pr =>
            -- `data.hook.postpatch`
            let ps9 := match pr.2.core.data with
              | some d => if d.hookPostpatch
                  then pr.1.log (Ev.userHook "postpatch" pr.2.core.vid) else pr.1
              | none => pr.1
            some (ps9, pr.2)

/-- `updateChildren(parentElm, oldCh, newCh, queue, removeOnly)` (patch.js
lines 507-687): run the two-pointer loop, then add the remaining new range
(reference node `newCh[newEndIdx + 1].elm`, null when that slot is
undefined) or remove the remaining old range. -/
def updateChildrenM (fuel : Nat) (ps : PS) (parentElm : Option Nat)
    (oldCh newCh : List VN) (removeOnly : Bool) : Option (PS × List VN) :=
  match fuel with
  | 0 => none
  | fuel + 1 =>
    match ucLoopM fuel parentElm removeOnly (ucInit ps oldCh newCh) with
    | none => none
    | some fin =>
        if fin.os > fin.oe then
          let refElm : Option Nat :=
            match getI fin.newChS (fin.ne + 1) with
            | none => none
            | some v => v.core.elm
          addVnodesM fuel fin.ps parentElm refElm fin.newChS fin.ns fin.ne
        else if fin.ns > fin.ne then
          match removeVnodesM fuel fin.ps fin.oldChS fin.os fin.oe with
          | none => none
          | some ps2 => some (ps2, fin.newChS)
        else some (fin.ps, fin.newChS)

/-- The `while (oldStartIdx <= oldEndIdx && newStartIdx <= newEndIdx)` loop
of `updateChildren` (patch.js lines 535-671). -/
def ucLoopM (fuel : Nat) (parentElm : Option Nat) (removeOnly : Bool)
    (st : UC) : Option UC :=
  match fuel with
  | 0 => none
  | fuel + 1 =>
    if st.os ≤ st.oe ∧ st.ns ≤ st.ne then
      match st.osv with
      | none =>
          -- `oldStartVnode = oldCh[++oldStartIdx]` (vnode was moved left)
          ucLoopM fuel parentElm removeOnly
            { st with
              os := st.os + 1, osv := getSlot st.oldChS (st.os + 1) }
      | some osv =>
        match st.oev with
        | none =>
            ucLoopM fuel parentElm removeOnly
              { st with
                oe := st.oe - 1, oev := getSlot st.oldChS (st.oe - 1) }
        | some oev =>
          match st.nsv, st.nev with
          | some nsv, some nev =>
            if sameVnode osv nsv then
              match patchVnodeM fuel st.ps osv nsv true removeOnly with
              | none => none
              | some pr =>
                  let newChS := setI st.newChS st.ns pr.2
                  ucLoopM fuel parentElm removeOnly
                    { st with
                      ps := pr.1, newChS := newChS,
                      os := st.os + 1, osv := getSlot st.oldChS (st.os + 1),
                      ns := st.ns + 1, nsv := getI newChS (st.ns + 1) }
            else if sameVnode oev nev then
              match patchVnodeM fuel st.ps oev nev true removeOnly with
              | none => none
              | some pr =>
                  let newChS := setI st.newChS st.ne pr.2
                  ucLoopM fuel parentElm removeOnly
                    { st with
                      ps := pr.1, newChS := newChS,
                      oe := st.oe - 1, oev := getSlot st.oldChS (st.oe - 1),
                      ne := st.ne - 1, nev := getI newChS (st.ne - 1) }
            else if sameVnode osv nev then
              -- vnode moved right: patch, then move the DOM node after oldEnd
              match patchVnodeM fuel st.ps osv nev true removeOnly with
              | none => none
              | some pr =>
                  let newChS := setI st.newChS st.ne pr.2
                  let ps2 := if !removeOnly
                    then pr.1.log (Ev.movedAfter osv.core.elm oev.core.elm)
                    else pr.1
                  ucLoopM fuel parentElm removeOnly
                    { st with
                      ps := ps2, newChS := newChS,
                      os := st.os + 1, osv := getSlot st.oldChS (st.os + 1),
                      ne := st.ne - 1, nev := getI newChS (st.ne - 1) }
            else if sameVnode oev nsv then
              -- vnode moved left: patch, then move the DOM node before oldStart
              match patchVnodeM fuel st.ps oev nsv true removeOnly with
              | none => none
              | some pr =>
                  let newChS := setI st.newChS st.ns pr.2
                  let ps2 := if !removeOnly
                    then pr.1.log (Ev.movedBefore oev.core.elm osv.core.elm)
                    else pr.1
                  ucLoopM fuel parentElm removeOnly
                    { st with
                      ps := ps2, newChS := newChS,
                      oe := st.oe - 1, oev := getSlot st.oldChS (st.oe - 1),
                      ns := st.ns + 1, nsv := getI newChS (st.ns + 1) }
            else
              -- keyed lookup
              let km := match st.km with
                | some m => m
                | none => keyMapRange st.oldChS st.os st.oe
              let idxInOld : Option Int :=
                if keyIsDef nsv.core.key then km.lookup (jsToString nsv.core.key)
                else findIdxInOld nsv st.oldChS st.os st.oe
              match idxInOld with
              | none =>
                  -- new element
                  match createElmM fuel st.ps nsv parentElm osv.core.elm true with
                  | none => none
                  | some pr =>
                      let newChS := setI st.newChS st.ns pr.2
                      ucLoopM fuel parentElm removeOnly
                        { st with
                      ps := pr.1, newChS := newChS, km := some km,
                          ns := st.ns + 1, nsv := getI newChS (st.ns + 1) }
              | some idx =>
                  match getSlot st.oldChS idx with
                  | some vtm =>
                      if sameVnode vtm nsv then
                        match patchVnodeM fuel st.ps vtm nsv true removeOnly with
                        | none => none
                        | some pr =>
                            let newChS := setI st.newChS st.ns pr.2
                            let oldChS := setI st.oldChS idx none
                            let ps2 := if !removeOnly
                              then pr.1.log
                                (Ev.movedBefore vtm.core.elm osv.core.elm)
                              else pr.1
                            ucLoopM fuel parentElm removeOnly
                              { st with
                      ps := ps2, newChS := newChS,
                                oldChS := oldChS, km := some km,
                                ns := st.ns + 1, nsv := getI newChS (st.ns + 1) }
                      else
                        -- same key but different element: treat as new
                        match createElmM fuel st.ps nsv parentElm osv.core.elm true with
                        | none => none
                        | some pr =>
                            let newChS := setI st.newChS st.ns pr.2
                            ucLoopM fuel parentElm removeOnly
                              { st with
                      ps := pr.1, newChS := newChS,
                                km := some km,
                                ns := st.ns + 1, nsv := getI newChS (st.ns + 1) }
                  | none =>
                      -- a stale key-map entry aimed at a cleared slot: the
                      -- duplicate-key case on which the JS would fault
                      none
          | _, _ => none   -- newCh reads are always defined while ns ≤ ne
    else some st

/-- The patch function returned by `createPatchFunction` (patch.js lines
956-1063), restricted to vnode arguments (the claim's "non-DOM-element"
case: `isRealElement` is false).  `parentOfOldElm` stands for
`nodeOps.parentNode(oldVnode.elm)`; the replace branch's insertion reference
`nextSibling(oldElm)` and the component-root ancestor walk
(`vnode.parent` placeholder chains) are host/component state outside the
model, recorded as a `none` ref and omitted respectively.  The
insert-hook queue flush adds no DOM operations. -/
def patchM (fuel : Nat) (ps : PS) (oldVnode vnode : Option VN)
    (parentOfOldElm : Option Nat) (removeOnly : Bool) :
    Option (PS × Option Nat) :=
  match fuel with
  | 0 => none
  | fuel + 1 =>
    match vnode with
    | none =>
        match oldVnode with
        | some old =>
            match invokeDestroyHookM fuel ps old with
            | none => none
            | some ps2 => some (ps2, none)
        | none => some (ps, none)
    | some v =>
        match oldVnode with
        | none =>
            -- empty mount (component initial render)
            match createElmM fuel ps v none none false with
            | none => none
            | some pr => some (pr.1, pr.2.core.elm)
        | some old =>
            if sameVnode old v then
              match patchVnodeM fuel ps old v false removeOnly with
              | none => none
              | some pr => some (pr.1, pr.2.core.elm)
            else
              match createElmM fuel ps v parentOfOldElm none false with
              | none => none
              | some pr =>
                  let fin : Option PS :=
                    if parentOfOldElm.isSome then
                      removeVnodesM fuel pr.1 [some old] 0 0
                    else if old.core.tag.isSome then
                      invokeDestroyHookM fuel pr.1 old
                    else some pr.1
                  match fin with
                  | none => none
                  | some ps3 => some (ps3, pr.2.core.elm)

end

/-! ### Claim theorems for the patch layer -/

theorem insertNode_some (ps : PS) (p : Nat) (e : Nat) (r : Option Nat) :
    insertNode ps (some p) e r = ps.log (Ev.insertedNode e (some p) r) := by
  cases r <;> rfl

/-- `sameVnode` is reflexive as soon as neither the key nor (for inputs) the
`attrs.type` chain is `NaN`. -/
theorem sameVnode_self (v : VN) (hk : v.core.key ≠ JSVal.nan)
    (ht : typeChain v ≠ JSVal.nan) : sameVnode v v = true := by
  unfold sameVnode
  have h1 : strictEq v.core.key v.core.key = true :=
    (strictEq_iff _ _).mpr ⟨rfl, hk⟩
  have h2 : sameInputType v v = true := by
    unfold sameInputType
    by_cases hin : v.core.tag = some "input"
    · rw [if_neg (by simp [hin])]
      have hs : strictEq (typeChain v) (typeChain v) = true :=
        (strictEq_iff _ _).mpr ⟨rfl, ht⟩
      simp [hs]
    · rw [if_pos (by simp [hin])]
  simp [h1, h2]

/-- C7 counterexample: a vnode whose `key` is `NaN` is not `sameVnode` with
itself (`a.key === b.key` fails), so `patch(v, v)` takes the replace branch
and performs host-DOM operations (create + insert + remove). -/
theorem vue_C7_counterexample :
    (patchM 6 ⟨[], 50⟩
      (some (VN.mk ⟨0, JSVal.nan, some "div", false, none, none, some 7,
        false, false, false, false, none, none⟩ none))
      (some (VN.mk ⟨0, JSVal.nan, some "div", false, none, none, some 7,
        false, false, false, false, none, none⟩ none))
      (some 1) false).map (fun pr => pr.1.events.any Ev.isDomOp)
      = some true := by
  rfl

/-- C7 (amended): `patch(v, v)` on one and the same live (non-DOM-element)
vnode performs no host-DOM operation — indeed it records no event at all —
PROVIDED `v.key` is not `NaN` and, when `v` is an input tag, its
`data.attrs.type` chain is not `NaN` (i.e. provided `sameVnode(v, v)`
holds); the `sameVnode` branch then dispatches to `patchVnode`, which
returns immediately because `oldVnode === vnode`. -/
theorem vue_C7_patch_idempotent (fuel : Nat) (ps : PS) (v : VN)
    (p : Option Nat) (ro : Bool)
    (hk : v.core.key ≠ JSVal.nan) (ht : typeChain v ≠ JSVal.nan) :
    patchM (fuel + 2) ps (some v) (some v) p ro = some (ps, v.core.elm) := by
  have hs := sameVnode_self v hk ht
  show (if sameVnode v v then
      match patchVnodeM (fuel + 1) ps v v false ro with
      | none => none
      | some pr => some (pr.1, pr.2.core.elm)
    else _) = some (ps, v.core.elm)
  rw [if_pos (by rw [hs])]
  have hp : patchVnodeM (fuel + 1) ps v v false ro = some (ps, v) := by
    show (if v.core.vid = v.core.vid then some (ps, v) else _) = some (ps, v)
    rw [if_pos rfl]
  rw [hp]

theorem vue_C7_witness :
    patchM 2 ⟨[], 0⟩
      (some (VN.mk ⟨4, JSVal.undef, some "div", false, none, none, some 7,
        false, false, false, false, none, none⟩ none))
      (some (VN.mk ⟨4, JSVal.undef, some "div", false, none, none, some 7,
        false, false, false, false, none, none⟩ none))
      (some 3) false
      = some (⟨[], 0⟩, some 7) := by
  exact vue_C7_patch_idempotent 0 ⟨[], 0⟩
    (VN.mk ⟨4, JSVal.undef, some "div", false, none, none, some 7,
      false, false, false, false, none, none⟩ none)
    (some 3) false (by decide) (by decide)

/-- C10 counterexample: the async-placeholder branch of `patchVnode` runs
BEFORE the static-tree branch.  With an old vnode that is both static and an
unresolved async placeholder, all the claim's premises hold (both static,
equal keys, new vnode cloned), yet `patchVnode` sets
`vnode.isAsyncPlaceholder` and returns WITHOUT copying
`componentInstance`. -/
theorem vue_C10_counterexample :
    ((VN.mk ⟨0, JSVal.undef, none, true, none, some "", some 3, true, false,
        false, true, some ⟨1, false, false⟩, some 7⟩ none).core.isStatic = true ∧
     (VN.mk ⟨1, JSVal.undef, none, true, none, some "", none, true, true,
        false, false, some ⟨1, false, false⟩, none⟩ none).core.isStatic = true ∧
     strictEq
       (VN.mk ⟨1, JSVal.undef, none, true, none, some "", none, true, true,
          false, false, some ⟨1, false, false⟩, none⟩ none).core.key
       (VN.mk ⟨0, JSVal.undef, none, true, none, some "", some 3, true, false,
          false, true, some ⟨1, false, false⟩, some 7⟩ none).core.key = true ∧
     (VN.mk ⟨1, JSVal.undef, none, true, none, some "", none, true, true,
        false, false, some ⟨1, false, false⟩, none⟩ none).core.isCloned = true) ∧
    (patchVnodeM 1 ⟨[], 10⟩
      (VN.mk ⟨0, JSVal.undef, none, true, none, some "", some 3, true, false,
        false, true, some ⟨1, false, false⟩, some 7⟩ none)
      (VN.mk ⟨1, JSVal.undef, none, true, none, some "", none, true, true,
        false, false, some ⟨1, false, false⟩, none⟩ none)
      false false).map (fun pr => pr.2.core.componentInstance) = some none ∧
    (VN.mk ⟨0, JSVal.undef, none, true, none, some "", some 3, true, false,
      false, true, some ⟨1, false, false⟩, some 7⟩ none).core.componentInstance
      = some 7 := by
  exact ⟨⟨rfl, rfl, by decide, rfl⟩, by decide, rfl⟩

/-- C10 (amended): when both vnodes are static with `===`-equal keys, the
new vnode is cloned or marked `isOnce`, the two are not reference-equal, and
the old vnode is NOT an async placeholder, `patchVnode` only transfers
`elm` (the line `vnode.elm = oldVnode.elm` runs just before the static
check) and `componentInstance` from the old vnode to the new one and
returns: no prepatch/update/postpatch hooks, no module hooks, no child
reconciliation, no host-DOM operation — no event at all — and the new
vnode's own tag, key, text and children are untouched. -/
theorem vue_C10_static_shortcircuit (fuel : Nat) (ps : PS) (old vnode : VN)
    (od ro : Bool)
    (hvid : ¬ old.core.vid = vnode.core.vid)
    (hasync : old.core.isAsyncPlaceholder = false)
    (hs1 : vnode.core.isStatic = true) (hs2 : old.core.isStatic = true)
    (hkey : strictEq vnode.core.key old.core.key = true)
    (hco : vnode.core.isCloned = true ∨ vnode.core.isOnce = true) :
    (patchVnodeM (fuel + 1) ps old vnode od ro).map (fun pr => pr.1.events)
      = some ps.events ∧
    (patchVnodeM (fuel + 1) ps old vnode od ro).map (fun pr => pr.2.core.elm)
      = some old.core.elm ∧
    (patchVnodeM (fuel + 1) ps old vnode od ro).map
      (fun pr => pr.2.core.componentInstance)
      = some old.core.componentInstance ∧
    (patchVnodeM (fuel + 1) ps old vnode od ro).map (fun pr => pr.2.core.key)
      = some vnode.core.key ∧
    (patchVnodeM (fuel + 1) ps old vnode od ro).map (fun pr => pr.2.core.tag)
      = some vnode.core.tag ∧
    (patchVnodeM (fuel + 1) ps old vnode od ro).map (fun pr => pr.2.core.text)
      = some vnode.core.text ∧
    (patchVnodeM (fuel + 1) ps old vnode od ro).map (fun pr => pr.2.children)
      = some vnode.children := by
  have hres : patchVnodeM (fuel + 1) ps old vnode od ro =
      (if vnode.core.elm.isSome && od then
        some ({ ps with nextNode := ps.nextNode + 1 },
          VN.mk { vnode.core with
            vid := ps.nextNode, isCloned := true,
            elm := old.core.elm,
            componentInstance := old.core.componentInstance } vnode.children)
      else
        some (ps, VN.mk { vnode.core with
          elm := old.core.elm,
          componentInstance := old.core.componentInstance } vnode.children)) := by
    unfold patchVnodeM
    rw [if_neg hvid]
    by_cases hcl : vnode.core.elm.isSome && od
    · simp only [hcl, if_true, cloneVN, PS.fresh]
      rw [if_neg (by rw [hasync]; exact Bool.false_ne_true)]
      rw [if_pos (by
        simp only [VN.core_mk]
        simp [hs1, hs2, hkey])]
      rfl
    · simp only [Bool.not_eq_true] at hcl
      simp only [hcl, Bool.false_eq_true, if_false]
      rw [if_neg (by rw [hasync]; exact Bool.false_ne_true)]
      rw [if_pos (by
        simp only [VN.core_mk]
        rcases hco with h | h <;> simp [hs1, hs2, hkey, h])]
      rfl
  rw [hres]
  by_cases hcl : vnode.core.elm.isSome && od
  · simp [hcl]
  · simp only [Bool.not_eq_true] at hcl
    simp [hcl]

theorem vue_C10_witness :
    (patchVnodeM 1 ⟨[], 0⟩
      (VN.mk ⟨0, JSVal.undef, some "p", false, none, none, some 3, true,
        false, false, false, none, some 7⟩ none)
      (VN.mk ⟨1, JSVal.undef, some "p", false, none, none, none, true,
        true, false, false, none, none⟩ none)
      false false).map (fun pr => pr.1.events) = some [] ∧
    (patchVnodeM 1 ⟨[], 0⟩
      (VN.mk ⟨0, JSVal.undef, some "p", false, none, none, some 3, true,
        false, false, false, none, some 7⟩ none)
      (VN.mk ⟨1, JSVal.undef, some "p", false, none, none, none, true,
        true, false, false, none, none⟩ none)
      false false).map (fun pr => pr.2.core.componentInstance) = some (some 7) := by
  have h := vue_C10_static_shortcircuit 0 ⟨[], 0⟩
    (VN.mk ⟨0, JSVal.undef, some "p", false, none, none, some 3, true,
      false, false, false, none, some 7⟩ none)
    (VN.mk ⟨1, JSVal.undef, some "p", false, none, none, none, true,
      true, false, false, none, none⟩ none)
    false false (by decide) rfl rfl rfl (by decide) (Or.inl rfl)
  exact ⟨h.1, h.2.2.1⟩

/-! ### C8: the exit phase of `updateChildren`

Spec-side descriptions of what `addVnodes` and `removeVnodes` do to the
event log, then the claim: the two-pointer loop only exits with one range
exhausted; with the old range exhausted the remaining new children
`[newStartIdx, newEndIdx]` are each created AND inserted with the constant
reference node `newCh[newEndIdx+1].elm` (null/append when that slot is
undefined); with the new range exhausted the remaining old children are
removed. -/

/-- A plain element vnode not yet bound to a host node (the common shape of
freshly rendered children). -/
def SimpleVN (v : VN) : Prop :=
  v.core.tag.isSome = true ∧ v.children = none ∧ v.core.text = none ∧
  v.core.data = none ∧ v.core.elm = none ∧ v.core.componentInstance = none

/-- An element vnode with no data and no children (the shape whose removal
is a single `removeNode`). -/
def PlainRemovable (v : VN) : Prop :=
  v.core.tag.isSome = true ∧ v.core.data = none ∧ v.children = none

/-- The claim's description of `addVnodes` on simple vnodes: for each index
of the range in order, one creation of that vnode's element followed by one
insertion before the SAME reference node, host nodes allocated
sequentially. -/
def insertEventsN (vs : List VN) (s : Int) (p r : Option Nat) (base : Nat) :
    Nat → List Ev
  | 0 => []
  | n + 1 =>
      match getI vs s with
      | some v =>
          Ev.createdNode v.core.vid base :: Ev.insertedNode base p r ::
            insertEventsN vs (s + 1) p r (base + 1) n
      | none => []

def insertEvents (vs : List VN) (s e : Int) (p r : Option Nat) (base : Nat) :
    List Ev :=
  insertEventsN vs s p r base (e + 1 - s).toNat

/-- The claim's description of `removeVnodes` on plain vnodes: one removal
per DEFINED slot of the range, in order. -/
def removeEventsN (vs : List (Option VN)) (s : Int) : Nat → List Ev
  | 0 => []
  | n + 1 =>
      (match getSlot vs s with
       | some v => [Ev.removedNode v.core.elm]
       | none => []) ++ removeEventsN vs (s + 1) n

def removeEvents (vs : List (Option VN)) (s e : Int) : List Ev :=
  removeEventsN vs s (e + 1 - s).toNat

theorem getI_setI_ne {α : Type} (xs : List α) (i j : Int) (a : α)
    (h : ¬ i = j) : getI (setI xs j a) i = getI xs i := by
  unfold getI setI
  by_cases hj : 0 ≤ j
  · rw [if_pos hj]
    by_cases hi : i < 0
    · rw [if_pos hi, if_pos hi]
    · rw [if_neg hi, if_neg hi]
      have hne : i.toNat ≠ j.toNat := by omega
      rw [List.getElem?_set_ne (by omega)]
  · rw [if_neg hj]

/-- `insertEventsN` only looks at the slots from `s` on. -/
theorem insertEventsN_congr (n : Nat) :
    ∀ (vs vs2 : List VN) (s : Int) (p r : Option Nat) (base : Nat),
      (∀ i, s ≤ i → getI vs2 i = getI vs i) →
      insertEventsN vs2 s p r base n = insertEventsN vs s p r base n := by
  induction n with
  | zero => intro vs vs2 s p r base h; rfl
  | succ n ih =>
      intro vs vs2 s p r base h
      show (match getI vs2 s with
        | some v =>
            Ev.createdNode v.core.vid base :: Ev.insertedNode base p r ::
              insertEventsN vs2 (s + 1) p r (base + 1) n
        | none => []) = _
      rw [h s (le_refl s)]
      rw [ih vs vs2 (s + 1) p r (base + 1)
        (fun i hi => h i (by omega))]
      rfl

/-- `createElm` on a simple vnode: allocate the element, no children, no
hooks, insert before the given reference. -/
theorem createElm_simple (fuel : Nat) (ps : PS) (v : VN) (pp : Nat)
    (r : Option Nat) (od : Bool) (hv : SimpleVN v) :
    createElmM (fuel + 1) ps v (some pp) r od =
      some ({ events := ps.events ++ [Ev.createdNode v.core.vid ps.nextNode,
                Ev.insertedNode ps.nextNode (some pp) r],
              nextNode := ps.nextNode + 1 },
            VN.mk { v.core with elm := some ps.nextNode } none) := by
  obtain ⟨htag, hch, htext, hdata, helm, hci⟩ := hv
  obtain ⟨t, ht⟩ := Option.isSome_iff_exists.mp htag
  unfold createElmM
  simp only [helm, Option.isSome_none, Bool.false_and, Bool.false_eq_true,
    if_false, hdata, ht, hch, htext, PS.fresh, PS.log, insertNode_some]
  simp [PS.log, List.append_assoc]

/-- `addVnodes` over a range of simple vnodes appends exactly the claimed
creation/insertion pairs, every insertion using the same reference node. -/
theorem addVnodes_simple :
    ∀ (fuel : Nat) (ps : PS) (p : Nat) (r : Option Nat) (vs : List VN)
      (s e : Int) (out : PS × List VN),
      addVnodesM fuel ps (some p) r vs s e = some out →
      (∀ i v, s ≤ i → i ≤ e → getI vs i = some v → SimpleVN v) →
      out.1.events = ps.events ++ insertEvents vs s e (some p) r ps.nextNode := by
  intro fuel
  induction fuel with
  | zero =>
      intro ps p r vs s e out h hall
      exact absurd h (by simp [addVnodesM])
  | succ fuel ih =>
      intro ps p r vs s e out h hall
      unfold addVnodesM at h
      by_cases hle : s ≤ e
      · rw [if_pos hle] at h
        rcases hg : getI vs s with _ | v
        · rw [hg] at h
          exact absurd h (by simp)
        · rw [hg] at h
          dsimp only at h
          have hv := hall s v (le_refl s) hle hg
          rcases hc : createElmM fuel ps v (some p) r true with _ | pr
          · rw [hc] at h
            exact absurd h (by simp)
          · rw [hc] at h
            dsimp only at h
            match fuel, ih, h, hc with
            | 0, ih, h, hc =>
                exact absurd hc (by simp [createElmM])
            | fuel + 1, ih, h, hc =>
              rw [createElm_simple fuel ps v p r true hv] at hc
              injection hc with hc2
              subst hc2
              have hall2 : ∀ i v2, s + 1 ≤ i → i ≤ e →
                  getI (setI vs s (VN.mk { v.core with
                    elm := some ps.nextNode } none)) i = some v2 →
                  SimpleVN v2 := by
                intro i v2 hi1 hi2 hgi
                rw [getI_setI_ne vs i s _ (by omega)] at hgi
                exact hall i v2 (by omega) hi2 hgi
              dsimp only at h
              have hrec := ih _ p r _ (s + 1) e out h hall2
              dsimp only at hrec
              rw [hrec]
              have hcong : insertEvents (setI vs s (VN.mk { v.core with
                  elm := some ps.nextNode } none)) (s + 1) e (some p) r
                  (ps.nextNode + 1) =
                  insertEvents vs (s + 1) e (some p) r (ps.nextNode + 1) := by
                unfold insertEvents
                exact insertEventsN_congr _ vs _ (s + 1) (some p) r _
                  (fun i hi => getI_setI_ne vs i s _ (by omega))
              have hhead : insertEvents vs s e (some p) r ps.nextNode =
                  Ev.createdNode v.core.vid ps.nextNode ::
                  Ev.insertedNode ps.nextNode (some p) r ::
                  insertEvents vs (s + 1) e (some p) r (ps.nextNode + 1) := by
                unfold insertEvents
                have hn : (e + 1 - s).toNat = (e + 1 - (s + 1)).toNat + 1 := by
                  omega
                rw [hn]
                simp only [insertEventsN]
                rw [hg]
              rw [hcong, hhead]
              simp [List.append_assoc]
      · rw [if_neg hle] at h
        have hout : out = (ps, vs) := by
          cases h
          rfl
        rw [hout]
        unfold insertEvents
        have hn : (e + 1 - s).toNat = 0 := by omega
        rw [hn]
        simp [insertEventsN]

/-- `removeVnodes` over a range of plain removable vnodes appends exactly
one removal per defined slot, in index order. -/
theorem removeVnodes_plain :
    ∀ (fuel : Nat) (ps : PS) (vs : List (Option VN)) (s e : Int) (out : PS),
      removeVnodesM fuel ps vs s e = some out →
      (∀ i v, s ≤ i → i ≤ e → getSlot vs i = some v → PlainRemovable v) →
      out.events = ps.events ++ removeEvents vs s e := by
  intro fuel
  induction fuel with
  | zero =>
      intro ps vs s e out h hall
      exact absurd h (by simp [removeVnodesM])
  | succ fuel ih =>
      intro ps vs s e out h hall
      unfold removeVnodesM at h
      by_cases hle : s ≤ e
      · rw [if_pos hle] at h
        have hn : (e + 1 - s).toNat = (e + 1 - (s + 1)).toNat + 1 := by omega
        rcases hg : getSlot vs s with _ | ch
        · rw [hg] at h
          dsimp only at h
          have hrec := ih _ vs (s + 1) e out h
            (fun i v hi1 hi2 hgi => hall i v (by omega) hi2 hgi)
          rw [hrec]
          have hre : removeEvents vs s e =
              removeEventsN vs (s + 1) (e + 1 - (s + 1)).toNat := by
            unfold removeEvents
            rw [hn]
            simp only [removeEventsN]
            rw [hg]
            simp
          rw [hre]
          rfl
        · rw [hg] at h
          dsimp only at h
          obtain ⟨htag, hdata, hch⟩ := hall s ch (le_refl s) hle hg
          rw [if_pos htag] at h
          rcases hs : invokeDestroyHookM fuel
              (removeAndInvokeRemoveHook ps ch) ch with _ | ps2
          · rw [hs] at h
            exact absurd h (by simp)
          · rw [hs] at h
            dsimp only at h
            match fuel, ih, h, hs with
            | 0, ih, h, hs =>
                exact absurd hs (by simp [invokeDestroyHookM])
            | fuel + 1, ih, h, hs =>
              have hstep : invokeDestroyHookM (fuel + 1)
                  (removeAndInvokeRemoveHook ps ch) ch =
                  some (ps.log (Ev.removedNode ch.core.elm)) := by
                unfold invokeDestroyHookM removeAndInvokeRemoveHook
                rw [hdata, hch]
              rw [hstep] at hs
              injection hs with hs2
              subst hs2
              have hrec := ih _ vs (s + 1) e out h
                (fun i v hi1 hi2 hgi => hall i v (by omega) hi2 hgi)
              rw [hrec]
              have hre : removeEvents vs s e =
                  Ev.removedNode ch.core.elm ::
                  removeEventsN vs (s + 1) (e + 1 - (s + 1)).toNat := by
                unfold removeEvents
                rw [hn]
                simp only [removeEventsN]
                rw [hg]
                simp
              rw [hre]
              show (ps.events ++ [Ev.removedNode ch.core.elm]) ++
                  removeEventsN vs (s + 1) (e + 1 - (s + 1)).toNat = _
              simp [List.append_assoc]
      · rw [if_neg hle] at h
        have hout : out = ps := by
          cases h
          rfl
        rw [hout]
        unfold removeEvents
        have hn : (e + 1 - s).toNat = 0 := by omega
        rw [hn]
        simp [removeEventsN]

/-- The two-pointer loop only ever returns at its exit test: the final state
has at least one exhausted range. -/
theorem ucLoop_exit (parentElm : Option Nat) (ro : Bool) :
    ∀ (fuel : Nat) (st fin : UC),
      ucLoopM fuel parentElm ro st = some fin →
      ¬ (fin.os ≤ fin.oe ∧ fin.ns ≤ fin.ne) := by
  intro fuel
  induction fuel with
  | zero =>
      intro st fin h
      exact absurd h (by simp [ucLoopM])
  | succ fuel ih =>
      intro st fin h
      unfold ucLoopM at h
      by_cases hc : st.os ≤ st.oe ∧ st.ns ≤ st.ne
      · rw [if_pos hc] at h
        dsimp only at h
        repeat' split at h
        all_goals first
          | exact ih _ _ h
          | exact Option.noConfusion h
      · rw [if_neg hc] at h
        cases h
        exact hc

/-- C8: whenever the two-pointer loop of `updateChildren` terminates, it
ends with the old range exhausted (`oldStartIdx > oldEndIdx`) or the new
range exhausted; in the first case `updateChildren` finishes by `addVnodes`
over the remaining `[newStartIdx, newEndIdx]` with the single reference node
`newCh[newEndIdx+1].elm` (null — meaning append — when that slot is
undefined); in the second it finishes by `removeVnodes` over the remaining
`[oldStartIdx, oldEndIdx]`.  Moreover `addVnodes` on simple vnodes creates
and inserts every vnode of the range, all before that same reference node,
and `removeVnodes` removes every defined slot of its range. -/
theorem vue_C8_updateChildren_exit
    (fuel : Nat) (ps : PS) (parentElm : Option Nat) (oldCh newCh : List VN)
    (removeOnly : Bool) (fin : UC)
    (h : ucLoopM fuel parentElm removeOnly (ucInit ps oldCh newCh) = some fin) :
    (fin.os > fin.oe ∨ fin.ns > fin.ne) ∧
    (fin.os > fin.oe →
      updateChildrenM (fuel + 1) ps parentElm oldCh newCh removeOnly =
        addVnodesM fuel fin.ps parentElm
          (match getI fin.newChS (fin.ne + 1) with
           | none => none
           | some v => v.core.elm)
          fin.newChS fin.ns fin.ne) ∧
    (¬ fin.os > fin.oe →
      fin.ns > fin.ne ∧
      updateChildrenM (fuel + 1) ps parentElm oldCh newCh removeOnly =
        (match removeVnodesM fuel fin.ps fin.oldChS fin.os fin.oe with
         | none => none
         | some ps2 => some (ps2, fin.newChS))) ∧
    (∀ (fuel2 : Nat) (ps2 : PS) (p : Nat) (r : Option Nat) (vs : List VN)
       (s e : Int) (out : PS × List VN),
       addVnodesM fuel2 ps2 (some p) r vs s e = some out →
       (∀ i v, s ≤ i → i ≤ e → getI vs i = some v → SimpleVN v) →
       out.1.events = ps2.events ++ insertEvents vs s e (some p) r ps2.nextNode) ∧
    (∀ (fuel2 : Nat) (ps2 : PS) (vs : List (Option VN)) (s e : Int) (out : PS),
       removeVnodesM fuel2 ps2 vs s e = some out →
       (∀ i v, s ≤ i → i ≤ e → getSlot vs i = some v → PlainRemovable v) →
       out.events = ps2.events ++ removeEvents vs s e) := by
  have hdi := ucLoop_exit parentElm removeOnly fuel _ fin h
  have hdi2 : fin.os > fin.oe ∨ fin.ns > fin.ne := by
    by_cases h1 : fin.os ≤ fin.oe
    · right
      by_contra h2
      exact hdi ⟨h1, by omega⟩
    · left
      omega
  refine ⟨hdi2, ?_, ?_, addVnodes_simple, removeVnodes_plain⟩
  · intro hcase
    unfold updateChildrenM
    rw [h]
    dsimp only
    rw [if_pos hcase]
  · intro hcase
    have hns : fin.ns > fin.ne := by
      rcases hdi2 with h1 | h1
      · exact absurd h1 hcase
      · exact h1
    refine ⟨hns, ?_⟩
    unfold updateChildrenM
    rw [h]
    dsimp only
    rw [if_neg hcase, if_pos hns]

theorem vue_C8_witness :
    (((ucInit ⟨[], 0⟩ [] [VN.mk ⟨0, JSVal.undef, some "span", false, none,
        none, none, false, false, false, false, none, none⟩ none]).os >
      (ucInit ⟨[], 0⟩ [] [VN.mk ⟨0, JSVal.undef, some "span", false, none,
        none, none, false, false, false, false, none, none⟩ none]).oe) ∧
     updateChildrenM 2 ⟨[], 0⟩ (some 5)
        [] [VN.mk ⟨0, JSVal.undef, some "span", false, none, none, none,
          false, false, false, false, none, none⟩ none] false =
      addVnodesM 1
        (ucInit ⟨[], 0⟩ [] [VN.mk ⟨0, JSVal.undef, some "span", false, none,
          none, none, false, false, false, false, none, none⟩ none]).ps
        (some 5) none
        (ucInit ⟨[], 0⟩ [] [VN.mk ⟨0, JSVal.undef, some "span", false, none,
          none, none, false, false, false, false, none, none⟩ none]).newChS
        0 0) := by
  have h := vue_C8_updateChildren_exit 1 ⟨[], 0⟩ (some 5)
    [] [VN.mk ⟨0, JSVal.undef, some "span", false, none, none, none,
      false, false, false, false, none, none⟩ none] false
    (ucInit ⟨[], 0⟩ [] [VN.mk ⟨0, JSVal.undef, some "span", false, none,
      none, none, false, false, false, false, none, none⟩ none]) rfl
  refine ⟨by decide, ?_⟩
  have h2 := h.2.1 (by decide)
  exact h2

end VueCore
